import Mathlib

/-!
Verification development for the audio-processing core of
`dnd_dm_assistant_go` (file `internal/audio/processor.go`).

The Go code is shallowly embedded as pure Lean functions over an explicit
`Processor` state.  Go maps keyed by SSRC (`uint32`) are modelled as
association lists `List (Nat × _)` with in-place update; Go's `time.Time`
values are modelled as natural-number millisecond timestamps; the side
effects of a method (writing an RTP packet into an OGG writer, the network
call to the speech recognizer, writing a debug file to disk, resetting a
buffer, closing a writer) are made visible as an ordered trace of `Event`s
returned next to the new state.  The bytes produced by the external
`oggwriter` library are not byte-modelled: a session's `bytes.Buffer` is
represented by the ordered list of packets written into it since its last
reset, and the OGG container framing is treated as opaque.  The external
recognizer's outcome and the wall clock are inputs, packaged in `Env`.
-/

/-- One Discord audio packet (`discordgo.Packet`): SSRC of the speaker,
RTP sequence number, RTP timestamp, and the opus payload bytes. -/
structure Packet where
  ssrc : Nat
  sequence : Nat
  timestamp : Nat
  opus : List Nat
  deriving DecidableEq, Repr

/-- Constant `discordSilencePacketSize` from the source. -/
def discordSilencePacketSize : Nat := 3

/-- Constant `discordSilenceMarker1` from the source. -/
def discordSilenceMarker1 : Nat := 248

/-- Constant `discordSilenceMarker2` from the source. -/
def discordSilenceMarker2 : Nat := 255

/-- Constant `discordSilenceMarker3` from the source. -/
def discordSilenceMarker3 : Nat := 254

/-- Constant `silenceThreshold` from the source (2 seconds), in milliseconds. -/
def silenceThresholdMs : Nat := 2000

/-- Source `isSilencePacket`: the payload is exactly 3 bytes long and equals
the sentinel triple 248, 255, 254.  The Go code indexes `Opus[0..2]` after a
short-circuit length check; `getD` reproduces that safely. -/
def isSilencePacket (packet : Packet) : Bool :=
  packet.opus.length == discordSilencePacketSize &&
  packet.opus.getD 0 0 == discordSilenceMarker1 &&
  packet.opus.getD 1 0 == discordSilenceMarker2 &&
  packet.opus.getD 2 0 == discordSilenceMarker3

/-- Classification of one packet, as performed by the branch structure of
`processAudioPacket`: the empty-payload guard runs first, then the
`isSilencePacket` check, and every remaining packet is voice. -/
inductive PacketClass where
  | Silence
  | Empty
  | Voice
  deriving DecidableEq, Repr

/-- The classifier implicit in `processAudioPacket`'s branch order. -/
def classifyPacket (packet : Packet) : PacketClass :=
  if packet.opus.length = 0 then PacketClass.Empty
  else if isSilencePacket packet then PacketClass.Silence
  else PacketClass.Voice

/-- Observable side effects of the processor, in program order. -/
inductive Event where
  | writeRTP (ssrc : Nat) (packet : Packet)
  | recognize (ssrc : Nat) (data : List Packet)
  | writeFile (filename : String) (data : List Packet)
  | resetBuffer (ssrc : Nat)
  | closeWriter (ssrc : Nat)
  deriving DecidableEq, Repr

/-- The `Processor` struct from the source.  Pointer-valued fields
(`speechService`, `voiceConnection`) are modelled by presence booleans; the
three SSRC-keyed maps are association lists.  An entry in `oggFiles` stands
for an open `oggwriter.OggWriter`; the entry in `oggBuffers` holds the
packets written into that writer's backing `bytes.Buffer` since its last
`Reset`. -/
structure Processor where
  debug : Bool
  speechServiceAvailable : Bool
  isProcessing : Bool
  hasVoiceConnection : Bool
  oggFiles : List Nat
  oggBuffers : List (Nat × List Packet)
  lastPacketTime : List (Nat × Nat)
  packetsReceived : Nat
  silenceDetections : Nat
  audioSegments : Nat
  totalBytesWritten : Nat
  deriving DecidableEq, Repr

/-- Inputs the environment supplies to one call: the current wall-clock time
in milliseconds (`time.Now()`), the formatted timestamp string used in debug
filenames, and whether the external recognizer call fails. -/
structure Env where
  now : Nat
  timestamp : String
  recognizeFails : Bool
  deriving DecidableEq, Repr

/-- Association-list lookup, modelling Go map read `m[k]`. -/
def lookupA {α : Type} : List (Nat × α) → Nat → Option α
  | [], _ => none
  | (k, v) :: rest, key => if k = key then some v else lookupA rest key

/-- Association-list store, modelling Go map write `m[k] = v`: replaces the
binding in place when the key is present, otherwise appends it. -/
def insertA {α : Type} : List (Nat × α) → Nat → α → List (Nat × α)
  | [], key, val => [(key, val)]
  | (k, v) :: rest, key, val =>
      if k = key then (key, val) :: rest else (k, v) :: insertA rest key val

/-- Keys of an association list, modelling `for k := range m`. -/
def keysOf {α : Type} (m : List (Nat × α)) : List Nat :=
  m.map Prod.fst

/-- The buffered packets of one SSRC (empty when no session exists). -/
def bufD (p : Processor) (ssrc : Nat) : List Packet :=
  (lookupA p.oggBuffers ssrc).getD []

theorem lookupA_insertA_self {α : Type} (m : List (Nat × α)) (k : Nat) (v : α) :
    lookupA (insertA m k v) k = some v := by
  induction m with
  | nil => simp [insertA, lookupA]
  | cons e rest ih =>
      obtain ⟨k1, v1⟩ := e
      by_cases h : k1 = k
      · simp [insertA, lookupA, h]
      · simp [insertA, lookupA, h, ih]

theorem lookupA_insertA_ne {α : Type} (m : List (Nat × α)) (k j : Nat) (v : α)
    (h : k ≠ j) : lookupA (insertA m k v) j = lookupA m j := by
  induction m with
  | nil => simp [insertA, lookupA, h]
  | cons e rest ih =>
      obtain ⟨k1, v1⟩ := e
      by_cases h1 : k1 = k
      · subst h1
        simp [insertA, lookupA, h]
      · by_cases h2 : k1 = j
        · simp [insertA, lookupA, h1, h2, Ne.symm h]
        · simp [insertA, lookupA, h1, h2, ih]

theorem lookupA_some_mem {α : Type} (m : List (Nat × α)) (k : Nat) (v : α)
    (h : lookupA m k = some v) : (k, v) ∈ m := by
  induction m with
  | nil => simp [lookupA] at h
  | cons e rest ih =>
      obtain ⟨k1, v1⟩ := e
      by_cases h1 : k1 = k
      · subst h1
        simp [lookupA] at h
        simp [h]
      · simp [lookupA, h1] at h
        exact List.mem_cons_of_mem _ (ih h)

theorem mem_insertA {α : Type} (m : List (Nat × α)) (k : Nat) (v : α) (e : Nat × α)
    (h : e ∈ insertA m k v) : e = (k, v) ∨ e ∈ m := by
  induction m with
  | nil => simpa [insertA] using h
  | cons e1 rest ih =>
      obtain ⟨k1, v1⟩ := e1
      by_cases h1 : k1 = k
      · simp [insertA, h1] at h
        rcases h with h | h
        · exact Or.inl h
        · exact Or.inr (List.mem_cons_of_mem _ h)
      · simp [insertA, h1] at h
        rcases h with h | h
        · exact Or.inr (by simp [h])
        · rcases ih h with h2 | h2
          · exact Or.inl h2
          · exact Or.inr (List.mem_cons_of_mem _ h2)

theorem keysOf_insertA_mem {α : Type} (m : List (Nat × α)) (k : Nat) (v : α)
    (h : (lookupA m k).isSome) : keysOf (insertA m k v) = keysOf m := by
  induction m with
  | nil => simp [lookupA] at h
  | cons e rest ih =>
      obtain ⟨k1, v1⟩ := e
      by_cases h1 : k1 = k
      · simp [insertA, h1, keysOf]
      · simp [lookupA, h1] at h
        simp [insertA, h1, keysOf] at ih ⊢
        exact ih h

theorem keysOf_insertA_notmem {α : Type} (m : List (Nat × α)) (k : Nat) (v : α)
    (h : lookupA m k = none) : keysOf (insertA m k v) = keysOf m ++ [k] := by
  induction m with
  | nil => simp [insertA, keysOf]
  | cons e rest ih =>
      obtain ⟨k1, v1⟩ := e
      by_cases h1 : k1 = k
      · simp [lookupA, h1] at h
      · simp [lookupA, h1] at h
        simp [insertA, h1, keysOf] at ih ⊢
        exact ih h

theorem lookupA_none_iff_notmem {α : Type} (m : List (Nat × α)) (k : Nat) :
    lookupA m k = none ↔ k ∉ keysOf m := by
  induction m with
  | nil => simp [lookupA, keysOf]
  | cons e rest ih =>
      obtain ⟨k1, v1⟩ := e
      by_cases h1 : k1 = k
      · simp [lookupA, h1, keysOf]
      · simp [lookupA, keysOf, h1] at ih ⊢
        constructor
        · intro h
          exact ⟨fun hk => h1 hk.symm, ih.mp h⟩
        · intro h
          exact ih.mpr h.2

/-- Source `writeDebugFile`: returns without writing when the data is empty;
otherwise writes one file named `debug_audio_<timestamp>_<ssrc>.ogg`. -/
def writeDebugFile (env : Env) (ssrc : Nat) (data : List Packet) : List Event :=
  if data.length = 0 then []
  else
    [Event.writeFile ("debug_audio_" ++ env.timestamp ++ "_" ++ toString ssrc ++ ".ogg") data]

/-- Source `sendBufferToGoogle`: returns immediately when the speech service
is absent, the SSRC has no buffer, or the buffer is empty.  Otherwise it
calls `RecognizeAudio` on the buffer's current contents; on failure it writes
the same bytes to a debug file; in both outcomes the buffer is then `Reset`
and the SSRC's last-packet time is set to now.  Note the program order: the
recognizer call happens first and the reset happens after it returns. -/
def sendBufferToGoogle (env : Env) (p : Processor) (ssrc : Nat) :
    Processor × List Event :=
  if p.speechServiceAvailable = false then (p, [])
  else
    match lookupA p.oggBuffers ssrc with
    | none => (p, [])
    | some buffer =>
        if buffer.length = 0 then (p, [])
        else
          let failTrace := if env.recognizeFails then writeDebugFile env ssrc buffer else []
          let p1 : Processor :=
            { p with oggBuffers := insertA p.oggBuffers ssrc [],
                     lastPacketTime := insertA p.lastPacketTime ssrc env.now }
          (p1, Event.recognize ssrc buffer :: failTrace ++ [Event.resetBuffer ssrc])

/-- Source `processAudioPacket`: nil and empty-payload packets are dropped;
every remaining packet bumps `packetsReceived`; a silence-sentinel packet
bumps `silenceDetections` and returns before any session state is touched;
a voice packet gets a session (OGG writer plus in-memory buffer) created on
first sight, refreshes the SSRC's last-packet time, and is written into the
session's OGG writer (`WriteRTP`), growing `totalBytesWritten` by the payload
length.  The in-memory `oggwriter.NewWith` and `WriteRTP` never fail in this
model, matching the in-memory `bytes.Buffer` sink. -/
def processAudioPacket (env : Env) (p : Processor) (packet : Option Packet) :
    Processor × List Event :=
  match packet with
  | none => (p, [])
  | some pk =>
      if pk.opus.length = 0 then (p, [])
      else
        let p1 : Processor := { p with packetsReceived := p.packetsReceived + 1 }
        if isSilencePacket pk then
          ({ p1 with silenceDetections := p1.silenceDetections + 1 }, [])
        else
          let p2 : Processor :=
            if pk.ssrc ∈ p1.oggFiles then p1
            else
              { p1 with oggFiles := p1.oggFiles ++ [pk.ssrc],
                        oggBuffers := insertA p1.oggBuffers pk.ssrc [] }
          let p3 : Processor :=
            { p2 with lastPacketTime := insertA p2.lastPacketTime pk.ssrc env.now }
          let buffer := (lookupA p3.oggBuffers pk.ssrc).getD []
          let p4 : Processor :=
            { p3 with oggBuffers := insertA p3.oggBuffers pk.ssrc (buffer ++ [pk]),
                      totalBytesWritten := p3.totalBytesWritten + pk.opus.length }
          (p4, [Event.writeRTP pk.ssrc pk])

/-- The body of `checkAllForSilence`'s range loop, iterating over a snapshot
of the `lastPacketTime` entries: an SSRC whose last packet is older than the
silence threshold and whose buffer exists and is non-empty is flushed via
`sendBufferToGoogle`, threading the state left to right. -/
def flushStale (env : Env) (entries : List (Nat × Nat)) (p : Processor) :
    Processor × List Event :=
  match entries with
  | [] => (p, [])
  | (ssrc, lastTime) :: rest =>
      let step :=
        if silenceThresholdMs < env.now - lastTime then
          match lookupA p.oggBuffers ssrc with
          | some buffer => if 0 < buffer.length then sendBufferToGoogle env p ssrc else (p, [])
          | none => (p, [])
        else (p, [])
      let next := flushStale env rest step.1
      (next.1, step.2 ++ next.2)

/-- Source `checkAllForSilence`: a no-op without a speech service; otherwise
scans every known SSRC in `lastPacketTime` and flushes the stale non-empty
ones synchronously. -/
def checkAllForSilence (env : Env) (p : Processor) : Processor × List Event :=
  if p.speechServiceAvailable = false then (p, [])
  else flushStale env p.lastPacketTime p

/-- The flush loop of `StopProcessing`: `sendBufferToGoogle` for every key of
`oggBuffers`, threading the state. -/
def flushAllKeys (env : Env) (keys : List Nat) (p : Processor) :
    Processor × List Event :=
  match keys with
  | [] => (p, [])
  | ssrc :: rest =>
      let step := sendBufferToGoogle env p ssrc
      let next := flushAllKeys env rest step.1
      (next.1, step.2 ++ next.2)

/-- Source `StopProcessing`: returns at once when processing is not active;
otherwise clears the processing flag and connection, flushes every buffered
session one final time (only when a speech service exists), closes every OGG
writer, and replaces all three session maps with fresh empty ones. -/
def StopProcessing (env : Env) (p : Processor) : Processor × List Event :=
  if p.isProcessing = false then (p, [])
  else
    let p1 : Processor := { p with isProcessing := false, hasVoiceConnection := false }
    let flushed :=
      if p1.speechServiceAvailable then flushAllKeys env (keysOf p1.oggBuffers) p1
      else (p1, [])
    let closeTrace := flushed.1.oggFiles.map Event.closeWriter
    let p2 : Processor :=
      { flushed.1 with oggFiles := [], oggBuffers := [], lastPacketTime := [] }
    (p2, flushed.2 ++ closeTrace)

/-- Source `StartProcessing`: errors out (state untouched) when processing is
already active; otherwise stores the voice connection, raises the processing
flag, zeroes the debug counters and replaces the session maps with fresh
empty ones.  The returned `Option String` is the Go `error`. -/
def StartProcessing (p : Processor) : Processor × Option String :=
  if p.isProcessing then (p, some "audio processing already started")
  else
    ({ p with hasVoiceConnection := true, isProcessing := true,
              packetsReceived := 0, silenceDetections := 0,
              audioSegments := 0, totalBytesWritten := 0,
              oggFiles := [], oggBuffers := [], lastPacketTime := [] }, none)

/-- One externally triggered step of the running system: a packet delivered
to the ingestion loop (`processAudioPackets` checks `isProcessing` before
handling it), one silence-detector tick (`silenceDetector` likewise checks
`isProcessing` before calling `checkAllForSilence`), one direct flush, or a
shutdown request. -/
inductive AOp where
  | recv (env : Env) (packet : Option Packet)
  | tick (env : Env)
  | flush (env : Env) (ssrc : Nat)
  | stop (env : Env)
  deriving DecidableEq, Repr

/-- Interpretation of one step on the processor state. -/
def stepA (p : Processor) : AOp → Processor × List Event
  | AOp.recv env packet => if p.isProcessing then processAudioPacket env p packet else (p, [])
  | AOp.tick env => if p.isProcessing then checkAllForSilence env p else (p, [])
  | AOp.flush env ssrc => sendBufferToGoogle env p ssrc
  | AOp.stop env => StopProcessing env p

/-- Run a sequence of steps, concatenating the event traces in order. -/
def runA (p : Processor) : List AOp → Processor × List Event
  | [] => (p, [])
  | op :: rest =>
      let step := stepA p op
      let next := runA step.1 rest
      (next.1, step.2 ++ next.2)

/-- The flush batches for one SSRC visible in a trace (the payloads of its
`recognize` events), in order. -/
def batchesFor (ssrc : Nat) (tr : List Event) : List (List Packet) :=
  tr.filterMap fun e =>
    match e with
    | Event.recognize s d => if s = ssrc then some d else none
    | _ => none

/-- All packets handed to the recognizer for one SSRC, in order. -/
def sentFor (ssrc : Nat) (tr : List Event) : List Packet :=
  (batchesFor ssrc tr).flatten

/-- The SSRCs of the `recognize` events of a trace. -/
def recognizeSsrcs (tr : List Event) : List Nat :=
  tr.filterMap fun e =>
    match e with
    | Event.recognize s _ => some s
    | _ => none

/-- Whether an event is a recognizer (network) call. -/
def isRecognizeEvent : Event → Bool
  | Event.recognize _ _ => true
  | _ => false

/-- Whether an event is a container-encoding write (`WriteRTP`). -/
def isWriteRTPEvent : Event → Bool
  | Event.writeRTP _ _ => true
  | _ => false

/-- Whether an event is a debug-file write. -/
def isWriteFileEvent : Event → Bool
  | Event.writeFile _ _ => true
  | _ => false

/-- Whether an event is a buffer reset. -/
def isResetEvent : Event → Bool
  | Event.resetBuffer _ => true
  | _ => false

/-- Number of recognizer calls for one SSRC in a trace. -/
def countRecognize (ssrc : Nat) (tr : List Event) : Nat :=
  (tr.filter fun e =>
    match e with
    | Event.recognize s _ => s = ssrc
    | _ => false).length

/-- All packet batches a trace exposes to the outside world, whether through
the recognizer or through a debug file. -/
def batchesAll (tr : List Event) : List (List Packet) :=
  tr.filterMap fun e =>
    match e with
    | Event.recognize _ d => some d
    | Event.writeFile _ d => some d
    | _ => none

/-- The voice packets for one SSRC delivered by a step sequence: the received
packets that are non-empty, not the silence sentinel, and carry that SSRC. -/
def voiceIn (ssrc : Nat) (ops : List AOp) : List Packet :=
  ops.filterMap fun op =>
    match op with
    | AOp.recv _ (some pk) =>
        if pk.ssrc = ssrc ∧ pk.opus.length ≠ 0 ∧ isSilencePacket pk = false then some pk
        else none
    | _ => none

/-- Whether a step is a shutdown request. -/
def isStopOp : AOp → Bool
  | AOp.stop _ => true
  | _ => false

/-- Session-store coherence: every open OGG writer has a buffer entry and
every buffer entry has an open OGG writer.  Holds for every state reachable
from a fresh (or freshly started) processor. -/
def Coherent (p : Processor) : Prop :=
  (∀ s ∈ p.oggFiles, (lookupA p.oggBuffers s).isSome) ∧
  (∀ e ∈ p.oggBuffers, e.1 ∈ p.oggFiles)

/-- No session buffer holds a silence-sentinel packet. -/
def BuffersClean (p : Processor) : Prop :=
  ∀ e ∈ p.oggBuffers, ∀ pk ∈ e.2, isSilencePacket pk = false

/-- The claimed flush ordering: some buffer reset occurs strictly before the
first hand-off to the recognizer (false when a hand-off precedes every
reset). -/
def clearedBeforeHandoff (tr : List Event) : Bool :=
  match tr.findIdx? isResetEvent, tr.findIdx? isRecognizeEvent with
  | some i, some j => decide (i < j)
  | _, _ => true

/-- A tag is due for flushing on a detector tick: some `lastPacketTime` entry
for it is older than the silence threshold and its buffer is non-empty. -/
def staleNonEmpty (env : Env) (p : Processor) (ssrc : Nat) : Bool :=
  (p.lastPacketTime.any fun e =>
    e.1 == ssrc && decide (silenceThresholdMs < env.now - e.2)) &&
  !(bufD p ssrc).isEmpty

theorem batchesFor_append (s : Nat) (a b : List Event) :
    batchesFor s (a ++ b) = batchesFor s a ++ batchesFor s b := by
  simp [batchesFor, List.filterMap_append]

theorem sentFor_append (s : Nat) (a b : List Event) :
    sentFor s (a ++ b) = sentFor s a ++ sentFor s b := by
  simp [sentFor, batchesFor_append]

theorem countRecognize_append (s : Nat) (a b : List Event) :
    countRecognize s (a ++ b) = countRecognize s a + countRecognize s b := by
  simp [countRecognize, List.filter_append]

theorem batchesAll_append (a b : List Event) :
    batchesAll (a ++ b) = batchesAll a ++ batchesAll b := by
  simp [batchesAll, List.filterMap_append]

theorem recognizeSsrcs_append (a b : List Event) :
    recognizeSsrcs (a ++ b) = recognizeSsrcs a ++ recognizeSsrcs b := by
  simp [recognizeSsrcs, List.filterMap_append]

theorem keysNodup_insertA {α : Type} (m : List (Nat × α)) (k : Nat) (v : α)
    (h : (keysOf m).Nodup) : (keysOf (insertA m k v)).Nodup := by
  rcases he : lookupA m k with _ | v0
  · rw [keysOf_insertA_notmem m k v he]
    have hk : k ∉ keysOf m := (lookupA_none_iff_notmem m k).mp he
    simp [List.nodup_append, h, List.disjoint_singleton]
    exact hk
  · rw [keysOf_insertA_mem m k v (by simp [he])]
    exact h

/-- Case analysis of `sendBufferToGoogle`: either nothing happens (no speech
service, or no buffered audio for the SSRC), or the recognizer is called on
the buffer contents, a debug file is written exactly on failure, and the
buffer is reset with the last-packet time refreshed. -/
theorem sbg_cases (env : Env) (p : Processor) (s : Nat) :
    ((p.speechServiceAvailable = false ∨ bufD p s = []) ∧
      sendBufferToGoogle env p s = (p, [])) ∨
    (p.speechServiceAvailable = true ∧ bufD p s ≠ [] ∧
      sendBufferToGoogle env p s =
        ({ p with oggBuffers := insertA p.oggBuffers s [],
                  lastPacketTime := insertA p.lastPacketTime s env.now },
         Event.recognize s (bufD p s) ::
           (if env.recognizeFails then writeDebugFile env s (bufD p s) else []) ++
           [Event.resetBuffer s])) := by
  unfold sendBufferToGoogle
  split
  · next hsp => exact Or.inl ⟨Or.inl hsp, rfl⟩
  · next hsp =>
      have hsp1 : p.speechServiceAvailable = true := by
        revert hsp
        cases p.speechServiceAvailable <;> simp
      split
      · next heq => exact Or.inl ⟨Or.inr (by simp [bufD, heq]), rfl⟩
      · next buffer heq =>
          split
          · next hlen =>
              exact Or.inl ⟨Or.inr (by simp [bufD, heq, List.length_eq_zero.mp hlen]), rfl⟩
          · next hlen =>
              refine Or.inr ⟨hsp1, ?_, ?_⟩
              · simp only [bufD, heq, Option.getD_some]
                intro hc
                exact hlen (by simp [hc])
              · simp only [bufD, heq, Option.getD_some]

theorem batchesFor_writeDebugFile (t : Nat) (env : Env) (s : Nat) (d : List Packet) :
    batchesFor t (writeDebugFile env s d) = [] := by
  unfold writeDebugFile
  split <;> simp [batchesFor]

theorem countRecognize_writeDebugFile (t : Nat) (env : Env) (s : Nat) (d : List Packet) :
    countRecognize t (writeDebugFile env s d) = 0 := by
  unfold writeDebugFile
  split <;> simp [countRecognize]

theorem recognizeSsrcs_writeDebugFile (env : Env) (s : Nat) (d : List Packet) :
    recognizeSsrcs (writeDebugFile env s d) = [] := by
  unfold writeDebugFile
  split <;> simp [recognizeSsrcs]

theorem batchesAll_writeDebugFile (env : Env) (s : Nat) (d : List Packet) :
    batchesAll (writeDebugFile env s d) = if d.length = 0 then [] else [d] := by
  unfold writeDebugFile
  split <;> simp_all [batchesAll]

theorem sbg_fixed (env : Env) (p : Processor) (s : Nat) :
    (sendBufferToGoogle env p s).1.oggFiles = p.oggFiles ∧
    (sendBufferToGoogle env p s).1.isProcessing = p.isProcessing ∧
    (sendBufferToGoogle env p s).1.speechServiceAvailable = p.speechServiceAvailable := by
  rcases sbg_cases env p s with ⟨_, h⟩ | ⟨_, _, h⟩ <;> simp [h]

theorem sbg_bufD_ne (env : Env) (p : Processor) (s t : Nat) (h : t ≠ s) :
    bufD (sendBufferToGoogle env p s).1 t = bufD p t := by
  rcases sbg_cases env p s with ⟨_, hc⟩ | ⟨_, _, hc⟩
  · simp [hc]
  · simp only [hc, bufD]
    rw [lookupA_insertA_ne _ _ _ _ (Ne.symm h)]

theorem sbg_bufD_self (env : Env) (p : Processor) (s : Nat)
    (hsp : p.speechServiceAvailable = true) :
    bufD (sendBufferToGoogle env p s).1 s = [] := by
  rcases sbg_cases env p s with ⟨hc, h⟩ | ⟨_, _, h⟩
  · rcases hc with hc | hc
    · rw [hsp] at hc
      exact absurd hc (by simp)
    · simp [h, hc]
  · simp only [h, bufD]
    rw [lookupA_insertA_self]
    rfl

theorem sentFor_singleton_recognize (t s : Nat) (d : List Packet) :
    sentFor t [Event.recognize s d] = if s = t then d else [] := by
  by_cases h : s = t <;> simp [sentFor, batchesFor, h]

theorem sentFor_singleton_reset (t s : Nat) :
    sentFor t [Event.resetBuffer s] = [] := by
  simp [sentFor, batchesFor]

theorem sentFor_writeDebugFile (t : Nat) (env : Env) (s : Nat) (d : List Packet) :
    sentFor t (writeDebugFile env s d) = [] := by
  simp [sentFor, batchesFor_writeDebugFile]

theorem countRecognize_singleton_recognize (t s : Nat) (d : List Packet) :
    countRecognize t [Event.recognize s d] = if s = t then 1 else 0 := by
  by_cases h : s = t <;> simp [countRecognize, h]

theorem countRecognize_singleton_reset (t s : Nat) :
    countRecognize t [Event.resetBuffer s] = 0 := by
  simp [countRecognize]

theorem flushTrace_eq_append (s : Nat) (d : List Packet) (ft : List Event) :
    Event.recognize s d :: ft ++ [Event.resetBuffer s] =
      [Event.recognize s d] ++ ft ++ [Event.resetBuffer s] := by
  simp

theorem sbg_sentFor (env : Env) (p : Processor) (s t : Nat) :
    sentFor t (sendBufferToGoogle env p s).2 =
      if t = s ∧ p.speechServiceAvailable = true ∧ bufD p s ≠ [] then bufD p s
      else [] := by
  rcases sbg_cases env p s with ⟨hc, h⟩ | ⟨hsp, hne, h⟩
  · have hcond : ¬(t = s ∧ p.speechServiceAvailable = true ∧ bufD p s ≠ []) := by
      rintro ⟨_, h2, h3⟩
      rcases hc with hc | hc
      · rw [h2] at hc
        cases hc
      · exact h3 hc
    simp [h, sentFor, batchesFor, hcond]
  · have hft : sentFor t
        (if env.recognizeFails then writeDebugFile env s (bufD p s) else []) = [] := by
      split
      · exact sentFor_writeDebugFile t env s (bufD p s)
      · simp [sentFor, batchesFor]
    rw [h]
    simp only [flushTrace_eq_append, sentFor_append, hft,
      sentFor_singleton_recognize, sentFor_singleton_reset]
    by_cases ht : t = s
    · subst ht
      simp [hsp, hne]
    · simp [ht, Ne.symm ht]

theorem sbg_account (env : Env) (p : Processor) (s t : Nat) :
    sentFor t (sendBufferToGoogle env p s).2 ++ bufD (sendBufferToGoogle env p s).1 t =
      bufD p t := by
  rw [sbg_sentFor]
  by_cases ht : t = s
  · subst ht
    by_cases hsp : p.speechServiceAvailable = true
    · by_cases hne : bufD p t = []
      · rcases sbg_cases env p t with ⟨_, h⟩ | ⟨_, hne2, _⟩
        · simp [h, hne]
        · exact absurd hne hne2
      · simp [hsp, hne, sbg_bufD_self env p t hsp]
    · have hsp2 : p.speechServiceAvailable = false := by
        revert hsp
        cases p.speechServiceAvailable <;> simp
      rcases sbg_cases env p t with ⟨_, h⟩ | ⟨hc, _, _⟩
      · simp [h, hsp2]
      · rw [hc] at hsp
        simp at hsp
  · simp [ht, sbg_bufD_ne env p s t ht]

theorem sbg_count (env : Env) (p : Processor) (s t : Nat) :
    countRecognize t (sendBufferToGoogle env p s).2 =
      if t = s ∧ p.speechServiceAvailable = true ∧ bufD p s ≠ [] then 1 else 0 := by
  rcases sbg_cases env p s with ⟨hc, h⟩ | ⟨hsp, hne, h⟩
  · have hcond : ¬(t = s ∧ p.speechServiceAvailable = true ∧ bufD p s ≠ []) := by
      rintro ⟨_, h2, h3⟩
      rcases hc with hc | hc
      · rw [h2] at hc
        cases hc
      · exact h3 hc
    simp [h, countRecognize, hcond]
  · have hft : countRecognize t
        (if env.recognizeFails then writeDebugFile env s (bufD p s) else []) = 0 := by
      split
      · exact countRecognize_writeDebugFile t env s (bufD p s)
      · simp [countRecognize]
    rw [h]
    simp only [flushTrace_eq_append, countRecognize_append, hft,
      countRecognize_singleton_recognize, countRecognize_singleton_reset]
    by_cases ht : t = s
    · subst ht
      simp [hsp, hne]
    · simp [ht, Ne.symm ht]

theorem sbg_recognizeSsrcs (env : Env) (p : Processor) (s : Nat) :
    recognizeSsrcs (sendBufferToGoogle env p s).2 =
      if p.speechServiceAvailable = true ∧ bufD p s ≠ [] then [s] else [] := by
  rcases sbg_cases env p s with ⟨hc, h⟩ | ⟨hsp, hne, h⟩
  · have hcond : ¬(p.speechServiceAvailable = true ∧ bufD p s ≠ []) := by
      rintro ⟨h2, h3⟩
      rcases hc with hc | hc
      · rw [h2] at hc
        cases hc
      · exact h3 hc
    simp [h, recognizeSsrcs, hcond]
  · have hft : recognizeSsrcs
        (if env.recognizeFails then writeDebugFile env s (bufD p s) else []) = [] := by
      split
      · exact recognizeSsrcs_writeDebugFile env s (bufD p s)
      · simp [recognizeSsrcs]
    rw [h]
    simp only [flushTrace_eq_append, recognizeSsrcs_append, hft]
    simp [recognizeSsrcs, hsp, hne]

theorem sbg_batchesAll (env : Env) (p : Processor) (s : Nat) :
    ∀ d ∈ batchesAll (sendBufferToGoogle env p s).2, d = bufD p s := by
  rcases sbg_cases env p s with ⟨_, h⟩ | ⟨_, _, h⟩
  · simp [h, batchesAll]
  · intro d hd
    rw [h] at hd
    simp only [flushTrace_eq_append, batchesAll_append] at hd
    rcases List.mem_append.mp hd with hd | hd
    · rcases List.mem_append.mp hd with hd | hd
      · simpa [batchesAll] using hd
      · rcases hd2 : env.recognizeFails with _ | _
        · simp [hd2, batchesAll] at hd
        · rw [if_pos (by simp [hd2]), batchesAll_writeDebugFile] at hd
          split at hd
          · cases hd
          · simpa using hd
    · simp [batchesAll] at hd

theorem sbg_coherent (env : Env) (p : Processor) (s : Nat) (h : Coherent p) :
    Coherent (sendBufferToGoogle env p s).1 := by
  rcases sbg_cases env p s with ⟨_, hc⟩ | ⟨_, hne, hc⟩
  · rw [hc]
    exact h
  · obtain ⟨h1, h2⟩ := h
    rw [hc]
    constructor
    · intro t ht
      simp only at ht ⊢
      by_cases hts : t = s
      · subst hts
        rw [lookupA_insertA_self]
        rfl
      · rw [lookupA_insertA_ne _ _ _ _ (fun hx => hts hx.symm)]
        exact h1 t ht
    · intro e he
      simp only at he ⊢
      rcases mem_insertA _ _ _ _ he with he2 | he2
      · subst he2
        have hbs : (lookupA p.oggBuffers s).isSome := by
          revert hne
          unfold bufD
          rcases lookupA p.oggBuffers s with _ | v <;> simp
        rcases Option.isSome_iff_exists.mp hbs with ⟨v, hv⟩
        exact h2 (s, v) (lookupA_some_mem _ _ _ hv)
      · exact h2 e he2

theorem sbg_clean (env : Env) (p : Processor) (s : Nat) (h : BuffersClean p) :
    BuffersClean (sendBufferToGoogle env p s).1 := by
  rcases sbg_cases env p s with ⟨_, hc⟩ | ⟨_, _, hc⟩
  · rw [hc]
    exact h
  · rw [hc]
    intro e he
    simp only at he
    rcases mem_insertA _ _ _ _ he with he2 | he2
    · subst he2
      intro pk hpk
      cases hpk
    · exact h e he2

theorem sbg_trace_clean (env : Env) (p : Processor) (s : Nat) (h : BuffersClean p) :
    ∀ d ∈ batchesAll (sendBufferToGoogle env p s).2, ∀ pk ∈ d,
      isSilencePacket pk = false := by
  intro d hd pk hpk
  rw [sbg_batchesAll env p s d hd] at hpk
  revert hpk
  unfold bufD
  rcases hb : lookupA p.oggBuffers s with _ | buffer
  · simp
  · intro hpk
    exact h (s, buffer) (lookupA_some_mem _ _ _ hb) pk hpk

theorem sbg_lpt_nodup (env : Env) (p : Processor) (s : Nat)
    (h : (keysOf p.lastPacketTime).Nodup) :
    (keysOf (sendBufferToGoogle env p s).1.lastPacketTime).Nodup := by
  rcases sbg_cases env p s with ⟨_, hc⟩ | ⟨_, _, hc⟩
  · rw [hc]
    exact h
  · rw [hc]
    exact keysNodup_insertA _ _ _ h

theorem sbg_buffers_nodup (env : Env) (p : Processor) (s : Nat)
    (h : (keysOf p.oggBuffers).Nodup) :
    (keysOf (sendBufferToGoogle env p s).1.oggBuffers).Nodup := by
  rcases sbg_cases env p s with ⟨_, hc⟩ | ⟨_, _, hc⟩
  · rw [hc]
    exact h
  · rw [hc]
    exact keysNodup_insertA _ _ _ h

theorem isSilencePacket_iff (pk : Packet) :
    isSilencePacket pk = true ↔
      pk.opus = [discordSilenceMarker1, discordSilenceMarker2, discordSilenceMarker3] := by
  constructor
  · intro h
    simp only [isSilencePacket, Bool.and_eq_true, beq_iff_eq] at h
    obtain ⟨⟨⟨h3, h0⟩, h1⟩, h2⟩ := h
    rcases List.length_eq_three.mp h3 with ⟨a, b, c, habc⟩
    rw [habc] at h0 h1 h2
    simp [List.getD] at h0 h1 h2
    rw [habc, h0, h1, h2]
  · intro h
    simp [isSilencePacket, h, List.getD, discordSilencePacketSize,
      discordSilenceMarker1, discordSilenceMarker2, discordSilenceMarker3]

theorem isSilencePacket_length (pk : Packet) (h : isSilencePacket pk = true) :
    pk.opus.length = 3 := by
  rw [isSilencePacket_iff] at h
  rw [h]
  rfl

theorem pap_none (env : Env) (p : Processor) :
    processAudioPacket env p none = (p, []) := rfl

theorem pap_empty (env : Env) (p : Processor) (pk : Packet)
    (h : pk.opus.length = 0) : processAudioPacket env p (some pk) = (p, []) := by
  simp [processAudioPacket, h]

theorem pap_silence (env : Env) (p : Processor) (pk : Packet)
    (h : isSilencePacket pk = true) :
    processAudioPacket env p (some pk) =
      ({ p with packetsReceived := p.packetsReceived + 1,
                silenceDetections := p.silenceDetections + 1 }, []) := by
  have h0 : ¬pk.opus.length = 0 := by
    rw [isSilencePacket_length pk h]
    exact three_ne_zero
  simp [processAudioPacket, h0, h]

theorem pap_voice_trace (env : Env) (p : Processor) (pk : Packet)
    (h0 : ¬pk.opus.length = 0) (hs : isSilencePacket pk = false) :
    (processAudioPacket env p (some pk)).2 = [Event.writeRTP pk.ssrc pk] := by
  unfold processAudioPacket
  simp [h0, hs]

theorem pap_trace_shape (env : Env) (p : Processor) (pkt : Option Packet) :
    (processAudioPacket env p pkt).2 = [] ∨
    (∃ pk, pkt = some pk ∧
      (processAudioPacket env p pkt).2 = [Event.writeRTP pk.ssrc pk]) := by
  rcases pkt with _ | pk
  · exact Or.inl rfl
  · by_cases h0 : pk.opus.length = 0
    · rw [pap_empty env p pk h0]
      exact Or.inl rfl
    · rcases hs : isSilencePacket pk with _ | _
      · exact Or.inr ⟨pk, rfl, pap_voice_trace env p pk h0 hs⟩
      · rw [pap_silence env p pk hs]
        exact Or.inl rfl

theorem pap_sentFor (env : Env) (p : Processor) (pkt : Option Packet) (t : Nat) :
    sentFor t (processAudioPacket env p pkt).2 = [] := by
  rcases pap_trace_shape env p pkt with h | ⟨pk, _, h⟩ <;>
    simp [h, sentFor, batchesFor]

theorem pap_count (env : Env) (p : Processor) (pkt : Option Packet) (t : Nat) :
    countRecognize t (processAudioPacket env p pkt).2 = 0 := by
  rcases pap_trace_shape env p pkt with h | ⟨pk, _, h⟩ <;>
    simp [h, countRecognize]

theorem pap_batchesAll (env : Env) (p : Processor) (pkt : Option Packet) :
    batchesAll (processAudioPacket env p pkt).2 = [] := by
  rcases pap_trace_shape env p pkt with h | ⟨pk, _, h⟩ <;>
    simp [h, batchesAll]

theorem pap_no_network (env : Env) (p : Processor) (pkt : Option Packet) :
    ((processAudioPacket env p pkt).2.all fun e =>
      !isRecognizeEvent e && !isWriteFileEvent e) = true := by
  rcases pap_trace_shape env p pkt with h | ⟨pk, _, h⟩ <;>
    simp [h, isRecognizeEvent, isWriteFileEvent]

theorem pap_fixed (env : Env) (p : Processor) (pkt : Option Packet) :
    (processAudioPacket env p pkt).1.isProcessing = p.isProcessing ∧
    (processAudioPacket env p pkt).1.speechServiceAvailable = p.speechServiceAvailable := by
  rcases pkt with _ | pk
  · exact ⟨rfl, rfl⟩
  · unfold processAudioPacket
    by_cases h0 : pk.opus.length = 0
    · simp [h0]
    · by_cases hs : isSilencePacket pk
      · simp [h0, hs]
      · by_cases hm : pk.ssrc ∈ p.oggFiles <;> simp [h0, hs, hm]

theorem pap_voice_state_mem (env : Env) (p : Processor) (pk : Packet)
    (h0 : ¬pk.opus.length = 0) (hs : isSilencePacket pk = false)
    (hm : pk.ssrc ∈ p.oggFiles) :
    (processAudioPacket env p (some pk)).1 =
      { p with packetsReceived := p.packetsReceived + 1,
               lastPacketTime := insertA p.lastPacketTime pk.ssrc env.now,
               oggBuffers := insertA p.oggBuffers pk.ssrc
                 ((lookupA p.oggBuffers pk.ssrc).getD [] ++ [pk]),
               totalBytesWritten := p.totalBytesWritten + pk.opus.length } := by
  unfold processAudioPacket
  simp [h0, hs, hm]

theorem pap_voice_state_notmem (env : Env) (p : Processor) (pk : Packet)
    (h0 : ¬pk.opus.length = 0) (hs : isSilencePacket pk = false)
    (hm : pk.ssrc ∉ p.oggFiles) :
    (processAudioPacket env p (some pk)).1 =
      { p with packetsReceived := p.packetsReceived + 1,
               oggFiles := p.oggFiles ++ [pk.ssrc],
               lastPacketTime := insertA p.lastPacketTime pk.ssrc env.now,
               oggBuffers := insertA (insertA p.oggBuffers pk.ssrc []) pk.ssrc [pk],
               totalBytesWritten := p.totalBytesWritten + pk.opus.length } := by
  unfold processAudioPacket
  simp [h0, hs, hm, lookupA_insertA_self]

theorem pap_bufD (env : Env) (p : Processor) (pk : Packet) (t : Nat)
    (hcoh : Coherent p) :
    bufD (processAudioPacket env p (some pk)).1 t =
      bufD p t ++
        (if pk.ssrc = t ∧ pk.opus.length ≠ 0 ∧ isSilencePacket pk = false then [pk]
         else []) := by
  by_cases h0 : pk.opus.length = 0
  · simp [pap_empty env p pk h0, h0]
  · rcases hs : isSilencePacket pk with _ | _
    · by_cases hm : pk.ssrc ∈ p.oggFiles
      · rw [pap_voice_state_mem env p pk h0 hs hm]
        by_cases ht : pk.ssrc = t
        · subst ht
          unfold bufD
          simp only
          rw [lookupA_insertA_self]
          simp [h0, hs]
        · unfold bufD
          simp only
          rw [lookupA_insertA_ne _ _ _ _ ht]
          simp [ht]
      · rw [pap_voice_state_notmem env p pk h0 hs hm]
        by_cases ht : pk.ssrc = t
        · subst ht
          have hnone : lookupA p.oggBuffers pk.ssrc = none := by
            rcases hb : lookupA p.oggBuffers pk.ssrc with _ | v
            · rfl
            · exact absurd (hcoh.2 (pk.ssrc, v) (lookupA_some_mem _ _ _ hb)) hm
          unfold bufD
          simp only
          rw [lookupA_insertA_self, hnone]
          simp [h0, hs]
        · unfold bufD
          simp only
          rw [lookupA_insertA_ne _ _ _ _ ht, lookupA_insertA_ne _ _ _ _ ht]
          simp [ht]
    · rw [pap_silence env p pk hs]
      simp [hs, bufD]

theorem pap_coherent (env : Env) (p : Processor) (pkt : Option Packet)
    (hcoh : Coherent p) : Coherent (processAudioPacket env p pkt).1 := by
  rcases pkt with _ | pk
  · exact hcoh
  · by_cases h0 : pk.opus.length = 0
    · rw [pap_empty env p pk h0]
      exact hcoh
    · rcases hs : isSilencePacket pk with _ | _
      · by_cases hm : pk.ssrc ∈ p.oggFiles
        · rw [pap_voice_state_mem env p pk h0 hs hm]
          constructor
          · intro t ht
            simp only at ht ⊢
            by_cases hts : t = pk.ssrc
            · subst hts
              rw [lookupA_insertA_self]
              rfl
            · rw [lookupA_insertA_ne _ _ _ _ (fun hx => hts hx.symm)]
              exact hcoh.1 t ht
          · intro e he
            simp only at he ⊢
            rcases mem_insertA _ _ _ _ he with he2 | he2
            · rw [he2]
              exact hm
            · exact hcoh.2 e he2
        · rw [pap_voice_state_notmem env p pk h0 hs hm]
          constructor
          · intro t ht
            simp only [List.mem_append, List.mem_singleton] at ht
            simp only
            by_cases hts : t = pk.ssrc
            · subst hts
              rw [lookupA_insertA_self]
              rfl
            · rcases ht with ht | ht
              · rw [lookupA_insertA_ne _ _ _ _ (fun hx => hts hx.symm),
                    lookupA_insertA_ne _ _ _ _ (fun hx => hts hx.symm)]
                exact hcoh.1 t ht
              · exact absurd ht hts
          · intro e he
            simp only [List.mem_append, List.mem_singleton] at he ⊢
            rcases mem_insertA _ _ _ _ he with he2 | he2
            · rw [he2]
              simp
            · rcases mem_insertA _ _ _ _ he2 with he3 | he3
              · rw [he3]
                simp
              · exact Or.inl (hcoh.2 e he3)
      · rw [pap_silence env p pk hs]
        exact hcoh

theorem pap_clean (env : Env) (p : Processor) (pkt : Option Packet)
    (hclean : BuffersClean p) : BuffersClean (processAudioPacket env p pkt).1 := by
  rcases pkt with _ | pk
  · exact hclean
  · by_cases h0 : pk.opus.length = 0
    · rw [pap_empty env p pk h0]
      exact hclean
    · rcases hs : isSilencePacket pk with _ | _
      · by_cases hm : pk.ssrc ∈ p.oggFiles
        · rw [pap_voice_state_mem env p pk h0 hs hm]
          intro e he
          simp only at he
          rcases mem_insertA _ _ _ _ he with he2 | he2
          · rw [he2]
            intro q hq
            simp only [List.mem_append, List.mem_singleton] at hq
            rcases hq with hq | hq
            · rcases hb : lookupA p.oggBuffers pk.ssrc with _ | v
              · rw [hb] at hq
                cases hq
              · rw [hb] at hq
                exact hclean (pk.ssrc, v) (lookupA_some_mem _ _ _ hb) q hq
            · rw [hq]
              exact hs
          · exact hclean e he2
        · rw [pap_voice_state_notmem env p pk h0 hs hm]
          intro e he
          simp only at he
          rcases mem_insertA _ _ _ _ he with he2 | he2
          · rw [he2]
            intro q hq
            simp only [List.mem_singleton] at hq
            rw [hq]
            exact hs
          · rcases mem_insertA _ _ _ _ he2 with he3 | he3
            · rw [he3]
              intro q hq
              cases hq
            · exact hclean e he3
      · rw [pap_silence env p pk hs]
        exact hclean

theorem pap_lpt_nodup (env : Env) (p : Processor) (pkt : Option Packet)
    (h : (keysOf p.lastPacketTime).Nodup) :
    (keysOf (processAudioPacket env p pkt).1.lastPacketTime).Nodup := by
  rcases pkt with _ | pk
  · exact h
  · by_cases h0 : pk.opus.length = 0
    · rw [pap_empty env p pk h0]
      exact h
    · rcases hs : isSilencePacket pk with _ | _
      · by_cases hm : pk.ssrc ∈ p.oggFiles
        · rw [pap_voice_state_mem env p pk h0 hs hm]
          exact keysNodup_insertA _ _ _ h
        · rw [pap_voice_state_notmem env p pk h0 hs hm]
          exact keysNodup_insertA _ _ _ h
      · rw [pap_silence env p pk hs]
        exact h

theorem pap_lpt_self (env : Env) (p : Processor) (pk : Packet)
    (h0 : ¬pk.opus.length = 0) (hs : isSilencePacket pk = false) :
    lookupA (processAudioPacket env p (some pk)).1.lastPacketTime pk.ssrc =
      some env.now := by
  by_cases hm : pk.ssrc ∈ p.oggFiles
  · rw [pap_voice_state_mem env p pk h0 hs hm]
    exact lookupA_insertA_self _ _ _
  · rw [pap_voice_state_notmem env p pk h0 hs hm]
    exact lookupA_insertA_self _ _ _


def fsStep (env : Env) (k time : Nat) (p : Processor) : Processor × List Event :=
  if silenceThresholdMs < env.now - time ∧ bufD p k ≠ [] then sendBufferToGoogle env p k
  else (p, [])

theorem fs_cons (env : Env) (k time : Nat) (rest : List (Nat × Nat)) (p : Processor) :
    flushStale env ((k, time) :: rest) p =
      ((flushStale env rest (fsStep env k time p).1).1,
       (fsStep env k time p).2 ++ (flushStale env rest (fsStep env k time p).1).2) := by
  have hstep :
      (if silenceThresholdMs < env.now - time then
        match lookupA p.oggBuffers k with
        | some buffer =>
            if 0 < buffer.length then sendBufferToGoogle env p k else (p, [])
        | none => (p, [])
      else (p, [])) = fsStep env k time p := by
    by_cases hstale : silenceThresholdMs < env.now - time
    · rcases hb : lookupA p.oggBuffers k with _ | buffer
      · have hbe : bufD p k = [] := by simp [bufD, hb]
        simp [hstale, hb, fsStep, hbe]
      · by_cases hlen : 0 < buffer.length
        · have hbe : bufD p k ≠ [] := by
            simp only [bufD, hb, Option.getD_some]
            intro hx
            rw [hx] at hlen
            simp at hlen
          simp [hstale, hb, hlen, fsStep, hbe]
        · have hbuf : buffer = [] := by
            rcases buffer with _ | ⟨a, l⟩
            · rfl
            · simp at hlen
          have hbe : bufD p k = [] := by simp [bufD, hb, hbuf]
          simp [hstale, hb, hlen, fsStep, hbe]
    · simp [hstale, fsStep]
  show (let step :=
          if silenceThresholdMs < env.now - time then
            match lookupA p.oggBuffers k with
            | some buffer =>
                if 0 < buffer.length then sendBufferToGoogle env p k else (p, [])
            | none => (p, [])
          else (p, [])
        let next := flushStale env rest step.1
        (next.1, step.2 ++ next.2)) = _
  rw [hstep]

theorem fsStep_cases (env : Env) (k time : Nat) (p : Processor) :
    fsStep env k time p = (p, []) ∨
    (silenceThresholdMs < env.now - time ∧ bufD p k ≠ [] ∧
      fsStep env k time p = sendBufferToGoogle env p k) := by
  unfold fsStep
  split
  · next h => exact Or.inr ⟨h.1, h.2, rfl⟩
  · exact Or.inl rfl

theorem fs_fixed (env : Env) (entries : List (Nat × Nat)) (p : Processor) :
    (flushStale env entries p).1.oggFiles = p.oggFiles ∧
    (flushStale env entries p).1.isProcessing = p.isProcessing ∧
    (flushStale env entries p).1.speechServiceAvailable = p.speechServiceAvailable := by
  induction entries generalizing p with
  | nil => exact ⟨rfl, rfl, rfl⟩
  | cons e rest ih =>
      obtain ⟨k, time⟩ := e
      rw [fs_cons]
      rcases fsStep_cases env k time p with h | ⟨_, _, h⟩
      · rw [h]
        exact ih p
      · rw [h]
        obtain ⟨s1, s2, s3⟩ := sbg_fixed env p k
        obtain ⟨i1, i2, i3⟩ := ih (sendBufferToGoogle env p k).1
        exact ⟨i1.trans s1, i2.trans s2, i3.trans s3⟩

theorem fs_account (env : Env) (entries : List (Nat × Nat)) (p : Processor) (t : Nat) :
    sentFor t (flushStale env entries p).2 ++ bufD (flushStale env entries p).1 t =
      bufD p t := by
  induction entries generalizing p with
  | nil => simp [flushStale, sentFor, batchesFor]
  | cons e rest ih =>
      obtain ⟨k, time⟩ := e
      rw [fs_cons]
      simp only [sentFor_append, List.append_assoc]
      rw [ih (fsStep env k time p).1]
      rcases fsStep_cases env k time p with h | ⟨_, _, h⟩
      · simp [h, sentFor, batchesFor]
      · rw [h]
        exact sbg_account env p k t

theorem fs_bufD_notkey (env : Env) (entries : List (Nat × Nat)) (p : Processor)
    (s : Nat) (h : s ∉ entries.map Prod.fst) :
    bufD (flushStale env entries p).1 s = bufD p s := by
  induction entries generalizing p with
  | nil => rfl
  | cons e rest ih =>
      obtain ⟨k, time⟩ := e
      simp only [List.map_cons, List.mem_cons] at h
      push_neg at h
      rw [fs_cons]
      rcases fsStep_cases env k time p with hc | ⟨_, _, hc⟩
      · rw [hc]
        exact ih p h.2
      · rw [hc]
        rw [ih _ h.2]
        exact sbg_bufD_ne env p k s h.1

theorem fs_count_notkey (env : Env) (entries : List (Nat × Nat)) (p : Processor)
    (s : Nat) (h : s ∉ entries.map Prod.fst) :
    countRecognize s (flushStale env entries p).2 = 0 := by
  induction entries generalizing p with
  | nil => simp [flushStale, countRecognize]
  | cons e rest ih =>
      obtain ⟨k, time⟩ := e
      simp only [List.map_cons, List.mem_cons] at h
      push_neg at h
      rw [fs_cons, countRecognize_append]
      rcases fsStep_cases env k time p with hc | ⟨_, _, hc⟩
      · rw [hc]
        show countRecognize s [] + countRecognize s (flushStale env rest p).2 = 0
        rw [ih p h.2]
        rfl
      · rw [hc, sbg_count, ih _ h.2]
        simp [h.1]

theorem stale_any_false (env : Env) (entries : List (Nat × Nat)) (s : Nat)
    (h : s ∉ entries.map Prod.fst) :
    (entries.any fun e =>
      e.1 == s && decide (silenceThresholdMs < env.now - e.2)) = false := by
  induction entries with
  | nil => rfl
  | cons e rest ih =>
      obtain ⟨k, time⟩ := e
      simp only [List.map_cons, List.mem_cons] at h
      push_neg at h
      have hk : (k == s) = false := by
        simp [Ne.symm h.1]
      simp [List.any_cons, hk, ih h.2]

theorem fs_count (env : Env) (entries : List (Nat × Nat)) (p : Processor) (s : Nat)
    (hsp : p.speechServiceAvailable = true) (hnd : (entries.map Prod.fst).Nodup) :
    countRecognize s (flushStale env entries p).2 =
      if (entries.any fun e =>
            e.1 == s && decide (silenceThresholdMs < env.now - e.2)) &&
          !(bufD p s).isEmpty then 1 else 0 := by
  induction entries generalizing p with
  | nil => simp [flushStale, countRecognize]
  | cons e rest ih =>
      obtain ⟨k, time⟩ := e
      simp only [List.map_cons, List.nodup_cons] at hnd
      rw [fs_cons, countRecognize_append]
      by_cases hk : k = s
      · subst hk
        by_cases hstale : silenceThresholdMs < env.now - time
        · by_cases hbe : bufD p k = []
          · have hstep : fsStep env k time p = (p, []) := by
              unfold fsStep
              rw [if_neg]
              rintro ⟨_, hx⟩
              exact hx hbe
            rw [hstep]
            show countRecognize k [] + countRecognize k (flushStale env rest p).2 = _
            rw [fs_count_notkey env rest p k hnd.1]
            simp [countRecognize, hbe]
          · have hstep : fsStep env k time p = sendBufferToGoogle env p k := by
              unfold fsStep
              rw [if_pos ⟨hstale, hbe⟩]
            rw [hstep, sbg_count,
                fs_count_notkey env rest _ k hnd.1]
            simp [List.any_cons, hstale, hsp, hbe, List.isEmpty_iff]
        · have hstep : fsStep env k time p = (p, []) := by
            unfold fsStep
            rw [if_neg]
            rintro ⟨hx, _⟩
            exact hstale hx
          rw [hstep]
          show countRecognize k [] + countRecognize k (flushStale env rest p).2 = _
          rw [fs_count_notkey env rest p k hnd.1]
          simp [countRecognize, List.any_cons, hstale,
            stale_any_false env rest k hnd.1]
      · have hks : (k == s) = false := by simp [hk]
        have hsk : s ≠ k := fun hx => hk hx.symm
        rcases fsStep_cases env k time p with hc | ⟨_, _, hc⟩
        · rw [hc]
          show countRecognize s [] + countRecognize s (flushStale env rest p).2 = _
          rw [ih p hsp hnd.2]
          simp only [countRecognize, List.filter_nil, List.length_nil, Nat.zero_add,
            List.any_cons, hks, Bool.false_and, Bool.false_or]
        · rw [hc, sbg_count]
          have hsp2 := (sbg_fixed env p k).2.2
          rw [ih _ (hsp2.trans hsp) hnd.2,
              sbg_bufD_ne env p k s hsk]
          simp only [hsk, false_and, if_false, Nat.zero_add,
            List.any_cons, hks, Bool.false_and, Bool.false_or]

theorem mem_recognizeSsrcs_count (s : Nat) (tr : List Event) :
    s ∈ recognizeSsrcs tr ↔ countRecognize s tr ≠ 0 := by
  induction tr with
  | nil => simp [recognizeSsrcs, countRecognize]
  | cons e rest ih =>
      rcases e with _ | ⟨s1, d⟩ | _ | _ | _
      · simpa [recognizeSsrcs, countRecognize] using ih
      · by_cases hs : s1 = s
        · subst hs
          simp [recognizeSsrcs, countRecognize]
        · simp only [recognizeSsrcs, countRecognize, List.filterMap_cons,
            List.filter_cons] at ih ⊢
          simp [hs, Ne.symm hs, ih, recognizeSsrcs, countRecognize]
      · simpa [recognizeSsrcs, countRecognize] using ih
      · simpa [recognizeSsrcs, countRecognize] using ih
      · simpa [recognizeSsrcs, countRecognize] using ih

theorem fs_flushed_empty (env : Env) (entries : List (Nat × Nat)) (p : Processor)
    (s : Nat) (hnd : (entries.map Prod.fst).Nodup)
    (h : s ∈ recognizeSsrcs (flushStale env entries p).2) :
    bufD (flushStale env entries p).1 s = [] := by
  induction entries generalizing p with
  | nil => simp [flushStale, recognizeSsrcs] at h
  | cons e rest ih =>
      obtain ⟨k, time⟩ := e
      simp only [List.map_cons, List.nodup_cons] at hnd
      rw [fs_cons] at h ⊢
      rw [recognizeSsrcs_append] at h
      rcases List.mem_append.mp h with hmem | hmem
      · rcases fsStep_cases env k time p with hc | ⟨_, _, hc⟩
        · rw [hc] at hmem
          simp [recognizeSsrcs] at hmem
        · rw [hc] at hmem ⊢
          rw [sbg_recognizeSsrcs] at hmem
          have hsk : s = k ∧ (p.speechServiceAvailable = true ∧ bufD p k ≠ []) := by
            by_cases hcond : p.speechServiceAvailable = true ∧ bufD p k ≠ []
            · rw [if_pos hcond] at hmem
              exact ⟨List.mem_singleton.mp hmem, hcond⟩
            · rw [if_neg hcond] at hmem
              cases hmem
          obtain ⟨hseq, hsp, _⟩ := hsk
          subst hseq
          rw [fs_bufD_notkey env rest _ s hnd.1]
          exact sbg_bufD_self env p s hsp
      · exact ih (fsStep env k time p).1 hnd.2 hmem

theorem fs_coherent (env : Env) (entries : List (Nat × Nat)) (p : Processor)
    (h : Coherent p) : Coherent (flushStale env entries p).1 := by
  induction entries generalizing p with
  | nil => exact h
  | cons e rest ih =>
      obtain ⟨k, time⟩ := e
      rw [fs_cons]
      rcases fsStep_cases env k time p with hc | ⟨_, _, hc⟩
      · rw [hc]
        exact ih p h
      · rw [hc]
        exact ih _ (sbg_coherent env p k h)

theorem fs_lpt_nodup (env : Env) (entries : List (Nat × Nat)) (p : Processor)
    (h : (keysOf p.lastPacketTime).Nodup) :
    (keysOf (flushStale env entries p).1.lastPacketTime).Nodup := by
  induction entries generalizing p with
  | nil => exact h
  | cons e rest ih =>
      obtain ⟨k, time⟩ := e
      rw [fs_cons]
      rcases fsStep_cases env k time p with hc | ⟨_, _, hc⟩
      · rw [hc]
        exact ih p h
      · rw [hc]
        exact ih _ (sbg_lpt_nodup env p k h)

theorem fs_clean_all (env : Env) (entries : List (Nat × Nat)) (p : Processor)
    (h : BuffersClean p) :
    BuffersClean (flushStale env entries p).1 ∧
    ∀ d ∈ batchesAll (flushStale env entries p).2, ∀ pk ∈ d,
      isSilencePacket pk = false := by
  induction entries generalizing p with
  | nil => exact ⟨h, by simp [flushStale, batchesAll]⟩
  | cons e rest ih =>
      obtain ⟨k, time⟩ := e
      rw [fs_cons]
      rcases fsStep_cases env k time p with hc | ⟨_, _, hc⟩
      · rw [hc]
        obtain ⟨ih1, ih2⟩ := ih p h
        refine ⟨ih1, ?_⟩
        intro d hd
        rw [batchesAll_append] at hd
        rcases List.mem_append.mp hd with hd | hd
        · simp [batchesAll] at hd
        · exact ih2 d hd
      · rw [hc]
        obtain ⟨ih1, ih2⟩ := ih _ (sbg_clean env p k h)
        refine ⟨ih1, ?_⟩
        intro d hd
        rw [batchesAll_append] at hd
        rcases List.mem_append.mp hd with hd | hd
        · exact sbg_trace_clean env p k h d hd
        · exact ih2 d hd

theorem cafs_eq (env : Env) (p : Processor) (hsp : p.speechServiceAvailable = true) :
    checkAllForSilence env p = flushStale env p.lastPacketTime p := by
  simp [checkAllForSilence, hsp]

theorem cafs_count (env : Env) (p : Processor) (s : Nat)
    (hsp : p.speechServiceAvailable = true)
    (hnd : (keysOf p.lastPacketTime).Nodup) :
    countRecognize s (checkAllForSilence env p).2 =
      if staleNonEmpty env p s then 1 else 0 := by
  rw [cafs_eq env p hsp]
  rw [fs_count env p.lastPacketTime p s hsp hnd]
  rfl

theorem cafs_mem_iff (env : Env) (p : Processor) (s : Nat)
    (hsp : p.speechServiceAvailable = true)
    (hnd : (keysOf p.lastPacketTime).Nodup) :
    s ∈ recognizeSsrcs (checkAllForSilence env p).2 ↔ staleNonEmpty env p s = true := by
  rw [mem_recognizeSsrcs_count, cafs_count env p s hsp hnd]
  rcases h : staleNonEmpty env p s with _ | _ <;> simp [h]

theorem bufD_ne_mem_keys (p : Processor) (s : Nat) (h : bufD p s ≠ []) :
    s ∈ keysOf p.oggBuffers := by
  rcases hb : lookupA p.oggBuffers s with _ | v
  · exact absurd (by simp [bufD, hb]) h
  · have := lookupA_some_mem _ _ _ hb
    unfold keysOf
    exact List.mem_map.mpr ⟨(s, v), this, rfl⟩

theorem sbg_noop (env : Env) (p : Processor) (s : Nat) (hbe : bufD p s = []) :
    sendBufferToGoogle env p s = (p, []) := by
  rcases sbg_cases env p s with ⟨_, h⟩ | ⟨_, hne, _⟩
  · exact h
  · exact absurd hbe hne

theorem fak_fixed (env : Env) (keys : List Nat) (p : Processor) :
    (flushAllKeys env keys p).1.oggFiles = p.oggFiles ∧
    (flushAllKeys env keys p).1.isProcessing = p.isProcessing ∧
    (flushAllKeys env keys p).1.speechServiceAvailable = p.speechServiceAvailable := by
  induction keys generalizing p with
  | nil => exact ⟨rfl, rfl, rfl⟩
  | cons k rest ih =>
      show ((flushAllKeys env rest (sendBufferToGoogle env p k).1).1.oggFiles = _) ∧ _ ∧ _
      obtain ⟨s1, s2, s3⟩ := sbg_fixed env p k
      obtain ⟨i1, i2, i3⟩ := ih (sendBufferToGoogle env p k).1
      exact ⟨i1.trans s1, i2.trans s2, i3.trans s3⟩

theorem fak_bufD_notmem (env : Env) (keys : List Nat) (p : Processor) (s : Nat)
    (h : s ∉ keys) : bufD (flushAllKeys env keys p).1 s = bufD p s := by
  induction keys generalizing p with
  | nil => rfl
  | cons k rest ih =>
      simp only [List.mem_cons] at h
      push_neg at h
      show bufD (flushAllKeys env rest (sendBufferToGoogle env p k).1).1 s = _
      rw [ih _ h.2]
      exact sbg_bufD_ne env p k s h.1

theorem fak_bufD_empty_stays (env : Env) (keys : List Nat) (p : Processor) (s : Nat)
    (h : bufD p s = []) : bufD (flushAllKeys env keys p).1 s = [] := by
  induction keys generalizing p with
  | nil => exact h
  | cons k rest ih =>
      show bufD (flushAllKeys env rest (sendBufferToGoogle env p k).1).1 s = []
      by_cases hk : k = s
      · subst hk
        rw [sbg_noop env p k h]
        exact ih p h
      · refine ih _ ?_
        rw [sbg_bufD_ne env p k s (fun hx => hk hx.symm)]
        exact h

theorem fak_bufD_mem (env : Env) (keys : List Nat) (p : Processor) (s : Nat)
    (hsp : p.speechServiceAvailable = true) (h : s ∈ keys) :
    bufD (flushAllKeys env keys p).1 s = [] := by
  induction keys generalizing p with
  | nil => cases h
  | cons k rest ih =>
      show bufD (flushAllKeys env rest (sendBufferToGoogle env p k).1).1 s = []
      by_cases hk : k = s
      · subst hk
        exact fak_bufD_empty_stays env rest _ k (sbg_bufD_self env p k hsp)
      · rcases List.mem_cons.mp h with h2 | h2
        · exact absurd h2.symm hk
        · exact ih _ ((sbg_fixed env p k).2.2.trans hsp) h2

theorem fak_count (env : Env) (keys : List Nat) (p : Processor) (s : Nat)
    (hsp : p.speechServiceAvailable = true) :
    countRecognize s (flushAllKeys env keys p).2 =
      if s ∈ keys ∧ bufD p s ≠ [] then 1 else 0 := by
  induction keys generalizing p with
  | nil => simp [flushAllKeys, countRecognize]
  | cons k rest ih =>
      show countRecognize s ((sendBufferToGoogle env p k).2 ++
        (flushAllKeys env rest (sendBufferToGoogle env p k).1).2) = _
      rw [countRecognize_append, sbg_count,
          ih _ ((sbg_fixed env p k).2.2.trans hsp)]
      by_cases hk : k = s
      · subst hk
        by_cases hbe : bufD p k = []
        · simp [hbe, hsp, fak_bufD_empty_stays, sbg_noop env p k hbe]
        · rw [sbg_bufD_self env p k hsp]
          simp [hbe, hsp]
      · have hsk : s ≠ k := fun hx => hk hx.symm
        rw [sbg_bufD_ne env p k s hsk]
        simp [hsk, Ne.symm hsk, hk]

theorem fak_sentFor (env : Env) (keys : List Nat) (p : Processor) (t : Nat) :
    sentFor t (flushAllKeys env keys p).2 ++ bufD (flushAllKeys env keys p).1 t =
      bufD p t := by
  induction keys generalizing p with
  | nil => simp [flushAllKeys, sentFor, batchesFor]
  | cons k rest ih =>
      show sentFor t ((sendBufferToGoogle env p k).2 ++
          (flushAllKeys env rest (sendBufferToGoogle env p k).1).2) ++ _ = _
      rw [sentFor_append, List.append_assoc]
      show sentFor t (sendBufferToGoogle env p k).2 ++
        (sentFor t (flushAllKeys env rest (sendBufferToGoogle env p k).1).2 ++
          bufD (flushAllKeys env rest (sendBufferToGoogle env p k).1).1 t) = _
      rw [ih _]
      exact sbg_account env p k t

theorem fak_clean_all (env : Env) (keys : List Nat) (p : Processor)
    (h : BuffersClean p) :
    BuffersClean (flushAllKeys env keys p).1 ∧
    ∀ d ∈ batchesAll (flushAllKeys env keys p).2, ∀ pk ∈ d,
      isSilencePacket pk = false := by
  induction keys generalizing p with
  | nil => exact ⟨h, by simp [flushAllKeys, batchesAll]⟩
  | cons k rest ih =>
      obtain ⟨ih1, ih2⟩ := ih (sendBufferToGoogle env p k).1 (sbg_clean env p k h)
      refine ⟨ih1, ?_⟩
      intro d hd
      show ∀ pk ∈ d, isSilencePacket pk = false
      have : d ∈ batchesAll ((sendBufferToGoogle env p k).2 ++
        (flushAllKeys env rest (sendBufferToGoogle env p k).1).2) := hd
      rw [batchesAll_append] at this
      rcases List.mem_append.mp this with hd2 | hd2
      · exact sbg_trace_clean env p k h d hd2
      · exact ih2 d hd2

theorem writeDebugFile_events (env : Env) (s : Nat) (d : List Packet) (e : Event)
    (h : e ∈ writeDebugFile env s d) : ∃ n dd, e = Event.writeFile n dd := by
  unfold writeDebugFile at h
  split at h
  · cases h
  · have := List.mem_singleton.mp h
    exact ⟨_, _, this⟩

theorem sbg_no_close (env : Env) (p : Processor) (k t : Nat) :
    Event.closeWriter t ∉ (sendBufferToGoogle env p k).2 := by
  intro hmem
  rcases sbg_cases env p k with ⟨_, hc⟩ | ⟨_, _, hc⟩
  · rw [hc] at hmem
    simp at hmem
  · rw [hc] at hmem
    rcases List.mem_cons.mp hmem with h | h
    · exact Event.noConfusion h
    · rcases List.mem_append.mp h with h | h
      · rcases hf : env.recognizeFails with _ | _
        · rw [hf] at h
          simp at h
        · rw [hf, if_pos rfl] at h
          obtain ⟨n, dd, he⟩ := writeDebugFile_events env k (bufD p k) _ h
          exact Event.noConfusion he
      · exact Event.noConfusion (List.mem_singleton.mp h)

theorem fak_no_close (env : Env) (keys : List Nat) (p : Processor) (t : Nat) :
    Event.closeWriter t ∉ (flushAllKeys env keys p).2 := by
  induction keys generalizing p with
  | nil => simp [flushAllKeys]
  | cons k rest ih =>
      show Event.closeWriter t ∉ (sendBufferToGoogle env p k).2 ++ _
      rw [List.mem_append]
      rintro (hmem | hmem)
      · exact sbg_no_close env p k t hmem
      · exact ih _ hmem

theorem countRecognize_closeTrace (s : Nat) (l : List Nat) :
    countRecognize s (l.map Event.closeWriter) = 0 := by
  induction l with
  | nil => rfl
  | cons k rest ih => simp [countRecognize, List.filter, ih]

theorem sentFor_closeTrace (s : Nat) (l : List Nat) :
    sentFor s (l.map Event.closeWriter) = [] := by
  induction l with
  | nil => rfl
  | cons k rest ih => simp [sentFor, batchesFor, List.filterMap, ih]

theorem batchesAll_closeTrace (l : List Nat) :
    batchesAll (l.map Event.closeWriter) = [] := by
  induction l with
  | nil => rfl
  | cons k rest ih => simp [batchesAll, List.filterMap, ih]

theorem stop_noop (env : Env) (p : Processor) (hp : p.isProcessing = false) :
    StopProcessing env p = (p, []) := by
  simp [StopProcessing, hp]

theorem stop_unfold (env : Env) (p : Processor) (hp : p.isProcessing = true)
    (hsp : p.speechServiceAvailable = true) :
    StopProcessing env p =
      ({ (flushAllKeys env (keysOf p.oggBuffers)
            { p with isProcessing := false, hasVoiceConnection := false }).1 with
          oggFiles := [], oggBuffers := [], lastPacketTime := [] },
       (flushAllKeys env (keysOf p.oggBuffers)
            { p with isProcessing := false, hasVoiceConnection := false }).2 ++
         (flushAllKeys env (keysOf p.oggBuffers)
            { p with isProcessing := false, hasVoiceConnection := false }).1.oggFiles.map
           Event.closeWriter) := by
  simp only [StopProcessing, hp, Bool.true_eq_false, if_false, hsp, if_true]

theorem stop_count (env : Env) (p : Processor) (s : Nat)
    (hp : p.isProcessing = true) (hsp : p.speechServiceAvailable = true) :
    countRecognize s (StopProcessing env p).2 = if bufD p s = [] then 0 else 1 := by
  rw [stop_unfold env p hp hsp]
  simp only [countRecognize_append, countRecognize_closeTrace, Nat.add_zero]
  rw [fak_count env (keysOf p.oggBuffers)
    { p with isProcessing := false, hasVoiceConnection := false } s hsp]
  by_cases hbe : bufD p s = []
  · have hbe1 : bufD { p with isProcessing := false, hasVoiceConnection := false } s = [] :=
      hbe
    simp [hbe, hbe1]
  · have hmem : s ∈ keysOf p.oggBuffers := bufD_ne_mem_keys p s hbe
    have hbe1 : bufD { p with isProcessing := false, hasVoiceConnection := false } s ≠ [] :=
      hbe
    simp [hbe, hbe1, hmem]

theorem stop_sentFor (env : Env) (p : Processor) (s : Nat)
    (hp : p.isProcessing = true) (hsp : p.speechServiceAvailable = true) :
    sentFor s (StopProcessing env p).2 = bufD p s := by
  rw [stop_unfold env p hp hsp]
  simp only [sentFor_append, sentFor_closeTrace, List.append_nil]
  have hacc := fak_sentFor env (keysOf p.oggBuffers)
    { p with isProcessing := false, hasVoiceConnection := false } s
  have hempty : bufD (flushAllKeys env (keysOf p.oggBuffers)
      { p with isProcessing := false, hasVoiceConnection := false }).1 s = [] := by
    by_cases hbe : bufD p s = []
    · exact fak_bufD_empty_stays env _ _ s hbe
    · exact fak_bufD_mem env _ _ s hsp (bufD_ne_mem_keys p s hbe)
  rw [hempty, List.append_nil] at hacc
  exact hacc

theorem stop_close_iff (env : Env) (p : Processor) (t : Nat)
    (hp : p.isProcessing = true) (hsp : p.speechServiceAvailable = true) :
    Event.closeWriter t ∈ (StopProcessing env p).2 ↔ t ∈ p.oggFiles := by
  rw [stop_unfold env p hp hsp]
  simp only [List.mem_append]
  have hfiles := (fak_fixed env (keysOf p.oggBuffers)
    { p with isProcessing := false, hasVoiceConnection := false }).1
  rw [hfiles]
  constructor
  · rintro (h | h)
    · exact absurd h (fak_no_close env _ _ t)
    · rcases List.mem_map.mp h with ⟨x, hx, he⟩
      have : t = x := by
        cases he
        rfl
      rw [this]
      exact hx
  · intro h
    exact Or.inr (List.mem_map.mpr ⟨t, h, rfl⟩)

theorem stop_final (env : Env) (p : Processor) (hp : p.isProcessing = true) :
    (StopProcessing env p).1.oggFiles = [] ∧
    (StopProcessing env p).1.oggBuffers = [] ∧
    (StopProcessing env p).1.lastPacketTime = [] ∧
    (StopProcessing env p).1.isProcessing = false := by
  refine ⟨by simp [StopProcessing, hp], by simp [StopProcessing, hp],
    by simp [StopProcessing, hp], ?_⟩
  simp only [StopProcessing, hp, Bool.true_eq_false, if_false]
  by_cases hsp : p.speechServiceAvailable = true
  · rw [if_pos (show Processor.speechServiceAvailable
        { p with isProcessing := false, hasVoiceConnection := false } = true from hsp)]
    exact (fak_fixed env (keysOf p.oggBuffers)
      { p with isProcessing := false, hasVoiceConnection := false }).2.1
  · simp [hsp]

theorem stop_coherent (env : Env) (p : Processor) (h : Coherent p) :
    Coherent (StopProcessing env p).1 := by
  by_cases hp : p.isProcessing = true
  · obtain ⟨h1, h2, _, _⟩ := stop_final env p hp
    constructor
    · intro s hs
      rw [h1] at hs
      cases hs
    · intro e he
      rw [h2] at he
      cases he
  · rw [stop_noop env p (by revert hp; cases p.isProcessing <;> simp)]
    exact h

theorem stop_lpt_nodup (env : Env) (p : Processor)
    (h : (keysOf p.lastPacketTime).Nodup) :
    (keysOf (StopProcessing env p).1.lastPacketTime).Nodup := by
  by_cases hp : p.isProcessing = true
  · obtain ⟨_, _, h3, _⟩ := stop_final env p hp
    rw [h3]
    exact List.nodup_nil
  · rw [stop_noop env p (by revert hp; cases p.isProcessing <;> simp)]
    exact h

theorem stop_clean_all (env : Env) (p : Processor) (h : BuffersClean p) :
    BuffersClean (StopProcessing env p).1 ∧
    ∀ d ∈ batchesAll (StopProcessing env p).2, ∀ pk ∈ d,
      isSilencePacket pk = false := by
  by_cases hp : p.isProcessing = true
  · constructor
    · obtain ⟨_, h2, _, _⟩ := stop_final env p hp
      intro e he
      rw [h2] at he
      cases he
    · intro d hd
      simp only [StopProcessing, hp, Bool.true_eq_false, if_false] at hd
      rw [batchesAll_append, List.mem_append, batchesAll_closeTrace] at hd
      rcases hd with hd | hd
      · by_cases hsp : p.speechServiceAvailable = true
        · rw [if_pos hsp] at hd
          have hclean1 : BuffersClean
              { p with isProcessing := false, hasVoiceConnection := false } := h
          exact (fak_clean_all env _ _ hclean1).2 d hd
        · rw [if_neg hsp] at hd
          simp [batchesAll] at hd
      · cases hd
  · rw [stop_noop env p (by revert hp; cases p.isProcessing <;> simp)]
    exact ⟨h, by simp [batchesAll]⟩

theorem bool_eq_false {b : Bool} (h : ¬b = true) : b = false := by
  cases b
  · rfl
  · exact absurd rfl h

theorem cafs_noop (env : Env) (p : Processor)
    (hsp : p.speechServiceAvailable = false) :
    checkAllForSilence env p = (p, []) := by
  simp [checkAllForSilence, hsp]

theorem cafs_fixed (env : Env) (p : Processor) :
    (checkAllForSilence env p).1.oggFiles = p.oggFiles ∧
    (checkAllForSilence env p).1.isProcessing = p.isProcessing ∧
    (checkAllForSilence env p).1.speechServiceAvailable = p.speechServiceAvailable := by
  by_cases hsp : p.speechServiceAvailable = true
  · rw [cafs_eq env p hsp]
    exact fs_fixed env p.lastPacketTime p
  · rw [cafs_noop env p (bool_eq_false hsp)]
    exact ⟨rfl, rfl, rfl⟩

theorem cafs_account (env : Env) (p : Processor) (t : Nat) :
    sentFor t (checkAllForSilence env p).2 ++ bufD (checkAllForSilence env p).1 t =
      bufD p t := by
  by_cases hsp : p.speechServiceAvailable = true
  · rw [cafs_eq env p hsp]
    exact fs_account env p.lastPacketTime p t
  · rw [cafs_noop env p (bool_eq_false hsp)]
    simp [sentFor, batchesFor]

theorem cafs_coherent (env : Env) (p : Processor) (h : Coherent p) :
    Coherent (checkAllForSilence env p).1 := by
  by_cases hsp : p.speechServiceAvailable = true
  · rw [cafs_eq env p hsp]
    exact fs_coherent env p.lastPacketTime p h
  · rw [cafs_noop env p (bool_eq_false hsp)]
    exact h

theorem cafs_lpt_nodup (env : Env) (p : Processor)
    (h : (keysOf p.lastPacketTime).Nodup) :
    (keysOf (checkAllForSilence env p).1.lastPacketTime).Nodup := by
  by_cases hsp : p.speechServiceAvailable = true
  · rw [cafs_eq env p hsp]
    exact fs_lpt_nodup env p.lastPacketTime p h
  · rw [cafs_noop env p (bool_eq_false hsp)]
    exact h

theorem cafs_clean_all (env : Env) (p : Processor) (h : BuffersClean p) :
    BuffersClean (checkAllForSilence env p).1 ∧
    ∀ d ∈ batchesAll (checkAllForSilence env p).2, ∀ pk ∈ d,
      isSilencePacket pk = false := by
  by_cases hsp : p.speechServiceAvailable = true
  · rw [cafs_eq env p hsp]
    exact fs_clean_all env p.lastPacketTime p h
  · rw [cafs_noop env p (bool_eq_false hsp)]
    exact ⟨h, by simp [batchesAll]⟩

theorem stepA_recv (p : Processor) (env : Env) (pkt : Option Packet) :
    stepA p (AOp.recv env pkt) =
      if p.isProcessing then processAudioPacket env p pkt else (p, []) := rfl

theorem stepA_tick (p : Processor) (env : Env) :
    stepA p (AOp.tick env) =
      if p.isProcessing then checkAllForSilence env p else (p, []) := rfl

theorem stepA_flush (p : Processor) (env : Env) (s : Nat) :
    stepA p (AOp.flush env s) = sendBufferToGoogle env p s := rfl

theorem stepA_stop (p : Processor) (env : Env) :
    stepA p (AOp.stop env) = StopProcessing env p := rfl

theorem voiceIn_cons (t : Nat) (op : AOp) (rest : List AOp) :
    voiceIn t (op :: rest) = voiceIn t [op] ++ voiceIn t rest := by
  rcases op with ⟨env, pkt⟩ | env | ⟨env, s⟩ | env
  · rcases pkt with _ | pk
    · simp [voiceIn, List.filterMap_cons]
    · simp only [voiceIn, List.filterMap_cons]
      split
      · simp
      · simp
  · simp [voiceIn, List.filterMap_cons]
  · simp [voiceIn, List.filterMap_cons]
  · simp [voiceIn, List.filterMap_cons]

theorem step_coherent (p : Processor) (op : AOp) (h : Coherent p) :
    Coherent (stepA p op).1 := by
  rcases op with ⟨env, pkt⟩ | env | ⟨env, s⟩ | env
  · rw [stepA_recv]
    split
    · exact pap_coherent env p pkt h
    · exact h
  · rw [stepA_tick]
    split
    · exact cafs_coherent env p h
    · exact h
  · rw [stepA_flush]
    exact sbg_coherent env p s h
  · rw [stepA_stop]
    exact stop_coherent env p h

theorem step_lpt_nodup (p : Processor) (op : AOp)
    (h : (keysOf p.lastPacketTime).Nodup) :
    (keysOf (stepA p op).1.lastPacketTime).Nodup := by
  rcases op with ⟨env, pkt⟩ | env | ⟨env, s⟩ | env
  · rw [stepA_recv]
    split
    · exact pap_lpt_nodup env p pkt h
    · exact h
  · rw [stepA_tick]
    split
    · exact cafs_lpt_nodup env p h
    · exact h
  · rw [stepA_flush]
    exact sbg_lpt_nodup env p s h
  · rw [stepA_stop]
    exact stop_lpt_nodup env p h

theorem step_clean_all (p : Processor) (op : AOp) (h : BuffersClean p) :
    BuffersClean (stepA p op).1 ∧
    ∀ d ∈ batchesAll (stepA p op).2, ∀ pk ∈ d, isSilencePacket pk = false := by
  rcases op with ⟨env, pkt⟩ | env | ⟨env, s⟩ | env
  · rw [stepA_recv]
    split
    · refine ⟨pap_clean env p pkt h, ?_⟩
      rw [pap_batchesAll]
      simp
    · exact ⟨h, by simp [batchesAll]⟩
  · rw [stepA_tick]
    split
    · exact cafs_clean_all env p h
    · exact ⟨h, by simp [batchesAll]⟩
  · rw [stepA_flush]
    exact ⟨sbg_clean env p s h, sbg_trace_clean env p s h⟩
  · rw [stepA_stop]
    exact stop_clean_all env p h

theorem step_isProcessing_nostop (p : Processor) (op : AOp)
    (h : isStopOp op = false) :
    (stepA p op).1.isProcessing = p.isProcessing := by
  rcases op with ⟨env, pkt⟩ | env | ⟨env, s⟩ | env
  · rw [stepA_recv]
    split
    · exact (pap_fixed env p pkt).1
    · rfl
  · rw [stepA_tick]
    split
    · exact (cafs_fixed env p).2.1
    · rfl
  · rw [stepA_flush]
    exact (sbg_fixed env p s).2.1
  · cases h

theorem step_account (p : Processor) (op : AOp) (t : Nat)
    (hnostop : isStopOp op = false) (hproc : p.isProcessing = true)
    (hcoh : Coherent p) :
    sentFor t (stepA p op).2 ++ bufD (stepA p op).1 t =
      bufD p t ++ voiceIn t [op] := by
  rcases op with ⟨env, pkt⟩ | env | ⟨env, s⟩ | env
  · rw [stepA_recv, if_pos (by rw [hproc])]
    rw [pap_sentFor]
    rcases pkt with _ | pk
    · rw [pap_none]
      simp [voiceIn]
    · rw [pap_bufD env p pk t hcoh]
      simp only [voiceIn, List.filterMap_cons, List.filterMap_nil, List.nil_append]
      split
      · simp
      · simp
  · rw [stepA_tick, if_pos (by rw [hproc])]
    rw [cafs_account env p t]
    simp [voiceIn]
  · rw [stepA_flush]
    rw [show voiceIn t [AOp.flush env s] = [] from rfl, List.append_nil]
    exact sbg_account env p s t
  · cases hnostop

theorem runA_nil (p : Processor) : runA p [] = (p, []) := rfl

theorem runA_cons (p : Processor) (op : AOp) (rest : List AOp) :
    runA p (op :: rest) =
      ((runA (stepA p op).1 rest).1,
       (stepA p op).2 ++ (runA (stepA p op).1 rest).2) := rfl

theorem runA_account (ops : List AOp) (p : Processor) (t : Nat)
    (hcoh : Coherent p) (hproc : p.isProcessing = true)
    (hnostop : ∀ op ∈ ops, isStopOp op = false) :
    sentFor t (runA p ops).2 ++ bufD (runA p ops).1 t =
      bufD p t ++ voiceIn t ops := by
  induction ops generalizing p with
  | nil => simp [runA_nil, sentFor, batchesFor, voiceIn]
  | cons op rest ih =>
      have hop : isStopOp op = false := hnostop op (List.mem_cons_self op rest)
      have hrest : ∀ o ∈ rest, isStopOp o = false := fun o ho =>
        hnostop o (List.mem_cons_of_mem op ho)
      rw [runA_cons, voiceIn_cons]
      simp only [sentFor_append, List.append_assoc]
      rw [ih (stepA p op).1 (step_coherent p op hcoh)
        ((step_isProcessing_nostop p op hop).trans hproc) hrest]
      rw [show sentFor t (stepA p op).2 ++ (bufD (stepA p op).1 t ++ voiceIn t rest) =
        (sentFor t (stepA p op).2 ++ bufD (stepA p op).1 t) ++ voiceIn t rest by
          simp [List.append_assoc]]
      rw [step_account p op t hop hproc hcoh]
      simp [List.append_assoc]

theorem runA_clean (ops : List AOp) (p : Processor) (h : BuffersClean p) :
    BuffersClean (runA p ops).1 ∧
    ∀ d ∈ batchesAll (runA p ops).2, ∀ pk ∈ d, isSilencePacket pk = false := by
  induction ops generalizing p with
  | nil => exact ⟨h, by simp [runA_nil, batchesAll]⟩
  | cons op rest ih =>
      obtain ⟨s1, s2⟩ := step_clean_all p op h
      obtain ⟨i1, i2⟩ := ih (stepA p op).1 s1
      refine ⟨i1, ?_⟩
      intro d hd
      rw [runA_cons] at hd
      simp only [batchesAll_append, List.mem_append] at hd
      rcases hd with hd | hd
      · exact s2 d hd
      · exact i2 d hd

/-- A 4-byte voice packet from SSRC 5. -/
def voicePacket : Packet :=
  { ssrc := 5, sequence := 1, timestamp := 100, opus := [1, 2, 3, 4] }

/-- A silence-sentinel packet from SSRC 5. -/
def silencePacket : Packet :=
  { ssrc := 5, sequence := 2, timestamp := 120, opus := [248, 255, 254] }

/-- An environment whose recognizer call succeeds, 5 seconds into the call. -/
def envQuiet : Env :=
  { now := 5000, timestamp := "20260101_000000", recognizeFails := false }

/-- An environment whose recognizer call fails. -/
def envFail : Env :=
  { now := 5000, timestamp := "20260101_000000", recognizeFails := true }

/-- A processor mid-capture: SSRC 5 has one buffered voice packet, last heard
from at time 0. -/
def procBusy : Processor :=
  { debug := false, speechServiceAvailable := true, isProcessing := true,
    hasVoiceConnection := true, oggFiles := [5],
    oggBuffers := [(5, [voicePacket])], lastPacketTime := [(5, 0)],
    packetsReceived := 1, silenceDetections := 0, audioSegments := 0,
    totalBytesWritten := 4 }

/-- A freshly started processor with no sessions. -/
def procFresh : Processor :=
  { debug := false, speechServiceAvailable := true, isProcessing := true,
    hasVoiceConnection := true, oggFiles := [], oggBuffers := [],
    lastPacketTime := [], packetsReceived := 0, silenceDetections := 0,
    audioSegments := 0, totalBytesWritten := 0 }

/-- The numbered test packet of the shutdown scenario (tag 1). -/
def mkPk (n : Nat) : Packet :=
  { ssrc := 1, sequence := n, timestamp := 20 * n, opus := [9, n] }

/-- The shutdown scenario of the spec: tag 1 holds 5 buffered packets and
tag 2 holds none. -/
def procTwoTags : Processor :=
  { debug := false, speechServiceAvailable := true, isProcessing := true,
    hasVoiceConnection := true, oggFiles := [1, 2],
    oggBuffers := [(1, [mkPk 1, mkPk 2, mkPk 3, mkPk 4, mkPk 5]), (2, [])],
    lastPacketTime := [(1, 0), (2, 0)], packetsReceived := 5,
    silenceDetections := 0, audioSegments := 0, totalBytesWritten := 10 }

/-- A processor that is not currently processing. -/
def procStopped : Processor :=
  { procBusy with isProcessing := false }

/-- C4: for every packet, the classifier returns Silence exactly when the
payload is the 3-byte sentinel triple (248, 255, 254); it returns Empty
exactly when the payload length is zero; every other payload is Voice; and a
nil packet is dropped by `processAudioPacket` without touching any state. -/
theorem spec_c4_classifier :
    (∀ pk : Packet,
      (classifyPacket pk = PacketClass.Silence ↔
        pk.opus =
          [discordSilenceMarker1, discordSilenceMarker2, discordSilenceMarker3]) ∧
      (classifyPacket pk = PacketClass.Empty ↔ pk.opus.length = 0) ∧
      (classifyPacket pk = PacketClass.Voice ↔
        (pk.opus.length ≠ 0 ∧
          pk.opus ≠
            [discordSilenceMarker1, discordSilenceMarker2, discordSilenceMarker3]))) ∧
    ∀ env p, processAudioPacket env p none = (p, []) := by
  constructor
  · intro pk
    by_cases h0 : pk.opus.length = 0
    · have hns : pk.opus ≠
          [discordSilenceMarker1, discordSilenceMarker2, discordSilenceMarker3] := by
        intro hx
        rw [hx] at h0
        cases h0
      refine ⟨?_, ?_, ?_⟩
      · simp [classifyPacket, h0, hns]
      · simp [classifyPacket, h0]
      · simp [classifyPacket, h0]
    · rcases hs : isSilencePacket pk with _ | _
      · have hns : pk.opus ≠
            [discordSilenceMarker1, discordSilenceMarker2, discordSilenceMarker3] := by
          intro hx
          rw [(isSilencePacket_iff pk).mpr hx] at hs
          cases hs
        refine ⟨?_, ?_, ?_⟩
        · simp [classifyPacket, h0, hs, hns]
        · simp [classifyPacket, h0, hs]
        · simp [classifyPacket, h0, hs, hns]
      · have hsent := (isSilencePacket_iff pk).mp hs
        refine ⟨?_, ?_, ?_⟩
        · simp [classifyPacket, h0, hs, hsent]
        · simp [classifyPacket, h0, hs]
        · simp [classifyPacket, h0, hs, hsent]
  · intro env p
    exact pap_none env p

/-- Witness for C4 at a concrete packet: the sentinel classifies as Silence
and the 4-byte voice payload as Voice. -/
theorem spec_c4_classifier_witness :
    classifyPacket silencePacket = PacketClass.Silence ∧
    classifyPacket voicePacket = PacketClass.Voice := by
  constructor
  · exact (spec_c4_classifier.1 silencePacket).1.mpr (by decide)
  · exact (spec_c4_classifier.1 voicePacket).2.2.mpr (by decide)

/-- C9: when the recognizer call for a non-empty batch fails, the dispatcher
path does not retry: the recognizer is called exactly once, the batch is then
written to one debug file named `debug_audio_<timestamp>_<ssrc>.ogg`, and the
buffer is cleared; on success no file is written and the buffer is cleared
the same way. -/
theorem spec_c9_failure_no_retry (env : Env) (p : Processor) (s : Nat)
    (buffer : List Packet) (hsp : p.speechServiceAvailable = true)
    (hb : lookupA p.oggBuffers s = some buffer) (hne : buffer ≠ []) :
    (env.recognizeFails = true →
      (sendBufferToGoogle env p s).2 =
        [Event.recognize s buffer,
         Event.writeFile
           ("debug_audio_" ++ env.timestamp ++ "_" ++ toString s ++ ".ogg") buffer,
         Event.resetBuffer s]) ∧
    (env.recognizeFails = false →
      (sendBufferToGoogle env p s).2 =
        [Event.recognize s buffer, Event.resetBuffer s]) ∧
    countRecognize s (sendBufferToGoogle env p s).2 = 1 ∧
    bufD (sendBufferToGoogle env p s).1 s = [] := by
  have hbd : bufD p s = buffer := by simp [bufD, hb]
  have hbne : bufD p s ≠ [] := by
    rw [hbd]
    exact hne
  have hlen : ¬buffer.length = 0 := by
    intro hx
    exact hne (List.length_eq_zero.mp hx)
  rcases sbg_cases env p s with ⟨hc, _⟩ | ⟨_, _, hc⟩
  · rcases hc with hc | hc
    · rw [hsp] at hc
      cases hc
    · exact absurd hc hbne
  · refine ⟨?_, ?_, ?_, ?_⟩
    · intro hf
      rw [hc]
      simp only [hf, if_pos rfl, hbd]
      unfold writeDebugFile
      rw [if_neg hlen]
      rfl
    · intro hf
      rw [hc]
      simp only [hf, hbd]
      rfl
    · rw [sbg_count]
      simp [hsp, hbne]
    · exact sbg_bufD_self env p s hsp

/-- Witness for C9: the busy processor's SSRC-5 batch, under a failing
recognizer, yields exactly the recognize, debug-file and reset events. -/
theorem spec_c9_failure_no_retry_witness :
    (sendBufferToGoogle envFail procBusy 5).2 =
      [Event.recognize 5 [voicePacket],
       Event.writeFile "debug_audio_20260101_000000_5.ogg" [voicePacket],
       Event.resetBuffer 5] :=
  (spec_c9_failure_no_retry envFail procBusy 5 [voicePacket] rfl rfl
    (by decide)).1 rfl

/-- C10: `StartProcessing` returns an error exactly when processing is
already active and in that case leaves the state untouched; `StopProcessing`
on an inactive processor returns immediately with no state change and no
events, and stopping twice is the same as stopping once. -/
theorem spec_c10_start_stop_guards (p : Processor) :
    ((StartProcessing p).2.isSome ↔ p.isProcessing = true) ∧
    (p.isProcessing = true → (StartProcessing p).1 = p) ∧
    (p.isProcessing = false → ∀ env, StopProcessing env p = (p, [])) ∧
    (∀ env env2, StopProcessing env2 (StopProcessing env p).1 =
      ((StopProcessing env p).1, [])) := by
  refine ⟨?_, ?_, ?_, ?_⟩
  · by_cases hp : p.isProcessing = true
    · simp [StartProcessing, hp]
    · simp [StartProcessing, bool_eq_false hp]
  · intro hp
    simp [StartProcessing, hp]
  · intro hp env
    exact stop_noop env p hp
  · intro env env2
    by_cases hp : p.isProcessing = true
    · exact stop_noop env2 _ (stop_final env p hp).2.2.2
    · rw [stop_noop env p (bool_eq_false hp)]
      exact stop_noop env2 p (bool_eq_false hp)

/-- Witness for C10: starting the busy processor errors with the state
unchanged, and stopping the stopped processor is a no-op. -/
theorem spec_c10_start_stop_guards_witness :
    (StartProcessing procBusy).1 = procBusy ∧
    StopProcessing envQuiet procStopped = (procStopped, []) :=
  ⟨(spec_c10_start_stop_guards procBusy).2.1 rfl,
   (spec_c10_start_stop_guards procStopped).2.2.1 rfl envQuiet⟩

/-- C8: stopping an active processor (with a speech service) gives every
session with a non-empty buffer exactly one forced final flush carrying
exactly its buffered packets, gives sessions with empty buffers none, closes
every container writer, and releases all session state. -/
theorem spec_c8_shutdown (env : Env) (p : Processor)
    (hp : p.isProcessing = true) (hsp : p.speechServiceAvailable = true) :
    (∀ s, countRecognize s (StopProcessing env p).2 =
      if bufD p s = [] then 0 else 1) ∧
    (∀ s, sentFor s (StopProcessing env p).2 = bufD p s) ∧
    (∀ t, Event.closeWriter t ∈ (StopProcessing env p).2 ↔ t ∈ p.oggFiles) ∧
    (StopProcessing env p).1.oggFiles = [] ∧
    (StopProcessing env p).1.oggBuffers = [] ∧
    (StopProcessing env p).1.lastPacketTime = [] ∧
    (StopProcessing env p).1.isProcessing = false := by
  obtain ⟨f1, f2, f3, f4⟩ := stop_final env p hp
  exact ⟨fun s => stop_count env p s hp hsp,
         fun s => stop_sentFor env p s hp hsp,
         fun t => stop_close_iff env p t hp hsp, f1, f2, f3, f4⟩

/-- Witness for C8, the spec's shutdown scenario: tag 1 (5 buffered packets)
is flushed exactly once with exactly those 5 packets, tag 2 (empty) is not
flushed, and both writers are closed. -/
theorem spec_c8_shutdown_witness :
    countRecognize 1 (StopProcessing envQuiet procTwoTags).2 = 1 ∧
    countRecognize 2 (StopProcessing envQuiet procTwoTags).2 = 0 ∧
    sentFor 1 (StopProcessing envQuiet procTwoTags).2 =
      [mkPk 1, mkPk 2, mkPk 3, mkPk 4, mkPk 5] ∧
    Event.closeWriter 1 ∈ (StopProcessing envQuiet procTwoTags).2 ∧
    Event.closeWriter 2 ∈ (StopProcessing envQuiet procTwoTags).2 ∧
    (StopProcessing envQuiet procTwoTags).1.oggBuffers = [] := by
  obtain ⟨hc, hs, hcl, _, hb, _, _⟩ := spec_c8_shutdown envQuiet procTwoTags rfl rfl
  refine ⟨?_, ?_, ?_, ?_, ?_, hb⟩
  · rw [hc 1]
    decide
  · rw [hc 2]
    decide
  · rw [hs 1]
    decide
  · exact (hcl 1).mpr (by decide)
  · exact (hcl 2).mpr (by decide)

theorem mem_lookupA_nodup {α : Type} (m : List (Nat × α)) (k : Nat) (v : α)
    (hnd : (keysOf m).Nodup) (h : (k, v) ∈ m) : lookupA m k = some v := by
  induction m with
  | nil => cases h
  | cons e rest ih =>
      obtain ⟨k1, v1⟩ := e
      simp only [keysOf, List.map_cons, List.nodup_cons] at hnd
      rcases List.mem_cons.mp h with h2 | h2
      · rw [← h2]
        simp [lookupA]
      · have hk1 : k1 ≠ k := by
          intro hx
          subst hx
          exact hnd.1 (List.mem_map.mpr ⟨(k1, v), h2, rfl⟩)
        simp only [lookupA, hk1, if_false]
        exact ih hnd.2 h2

theorem staleNonEmpty_iff (env : Env) (p : Processor) (s : Nat)
    (hnd : (keysOf p.lastPacketTime).Nodup) :
    staleNonEmpty env p s = true ↔
      ((∃ time, lookupA p.lastPacketTime s = some time ∧
        silenceThresholdMs < env.now - time) ∧ bufD p s ≠ []) := by
  unfold staleNonEmpty
  rw [Bool.and_eq_true, List.any_eq_true]
  constructor
  · rintro ⟨⟨⟨k, time⟩, hmem, hcond⟩, hne⟩
    rw [Bool.and_eq_true, beq_iff_eq, decide_eq_true_eq] at hcond
    obtain ⟨hk, hstale⟩ := hcond
    subst hk
    refine ⟨⟨time, mem_lookupA_nodup _ _ _ hnd hmem, hstale⟩, ?_⟩
    intro hx
    rw [hx] at hne
    cases hne
  · rintro ⟨⟨time, hlk, hstale⟩, hne⟩
    refine ⟨⟨(s, time), lookupA_some_mem _ _ _ hlk, ?_⟩, ?_⟩
    · rw [Bool.and_eq_true, beq_iff_eq, decide_eq_true_eq]
      exact ⟨rfl, hstale⟩
    · rcases hb : bufD p s with _ | _
      · exact absurd hb hne
      · simp [hb]

/-- C6: on a silence-detector tick (with a speech service present), a source
tag is flushed — a recognize event for it appears in the tick's trace — if
and only if its last-activity timestamp is more than the 2-second threshold
old and its buffer is non-empty; in particular empty-buffered sources get no
recognizer call. -/
theorem spec_c6_flush_iff (env : Env) (p : Processor) (s : Nat)
    (hsp : p.speechServiceAvailable = true)
    (hnd : (keysOf p.lastPacketTime).Nodup) :
    s ∈ recognizeSsrcs (checkAllForSilence env p).2 ↔
      ((∃ time, lookupA p.lastPacketTime s = some time ∧
        silenceThresholdMs < env.now - time) ∧ bufD p s ≠ []) := by
  rw [cafs_mem_iff env p s hsp hnd]
  exact staleNonEmpty_iff env p s hnd

/-- Witness for C6: on the busy processor, SSRC 5 (stale, non-empty) is
flushed by the tick. -/
theorem spec_c6_flush_iff_witness :
    5 ∈ recognizeSsrcs (checkAllForSilence envQuiet procBusy).2 :=
  (spec_c6_flush_iff envQuiet procBusy 5 rfl (by decide)).mpr
    ⟨⟨0, rfl, by decide⟩, by decide⟩

/-- C2 counterexample: the code has no per-tag dispatcher or queue — the
silence detector itself performs the recognizer network call during its
tick, so the claim that the detector is never blocked by the recognizer (all
recognizer work being deferred to queued workers) is false at this state. -/
theorem spec_c2_counterexample :
    ((checkAllForSilence envQuiet procBusy).2.any isRecognizeEvent) = true ∧
    (checkAllForSilence envQuiet procBusy).2 =
      [Event.recognize 5 [voicePacket], Event.resetBuffer 5] := by
  constructor
  · decide
  · decide

/-- C2 amended: flush batches are processed synchronously inside the
detector tick: for every tag, the tick's own trace carries exactly one
recognizer call when the tag is stale with a non-empty buffer and none
otherwise — nothing is queued, deferred or dropped. -/
theorem spec_c2_synchronous_flush (env : Env) (p : Processor) (s : Nat)
    (hsp : p.speechServiceAvailable = true)
    (hnd : (keysOf p.lastPacketTime).Nodup) :
    countRecognize s (checkAllForSilence env p).2 =
      if staleNonEmpty env p s then 1 else 0 :=
  cafs_count env p s hsp hnd

/-- Witness for C2 amended: the busy processor's tick carries exactly one
recognizer call for SSRC 5. -/
theorem spec_c2_synchronous_flush_witness :
    countRecognize 5 (checkAllForSilence envQuiet procBusy).2 =
      if staleNonEmpty envQuiet procBusy 5 then 1 else 0 :=
  spec_c2_synchronous_flush envQuiet procBusy 5 rfl (by decide)

/-- C7: once a tick flushes a source, later ticks do not flush it again —
its buffer was emptied and its timer refreshed — until a new voice packet is
appended and the 2-second threshold passes again, in which case a later tick
does flush it exactly as a fresh threshold-crossing. -/
theorem spec_c7_single_flush (env1 : Env) (p : Processor) (s : Nat)
    (hsp : p.speechServiceAvailable = true)
    (hnd : (keysOf p.lastPacketTime).Nodup) (hcoh : Coherent p)
    (hflushed : s ∈ recognizeSsrcs (checkAllForSilence env1 p).2) :
    (∀ env2, countRecognize s
      (checkAllForSilence env2 (checkAllForSilence env1 p).1).2 = 0) ∧
    (∀ env2 env3 pk, pk.ssrc = s → pk.opus.length ≠ 0 →
      isSilencePacket pk = false →
      silenceThresholdMs < env3.now - env2.now →
      s ∈ recognizeSsrcs (checkAllForSilence env3
        (processAudioPacket env2 (checkAllForSilence env1 p).1 (some pk)).1).2) := by
  have hsp1 : (checkAllForSilence env1 p).1.speechServiceAvailable = true :=
    ((cafs_fixed env1 p).2.2).trans hsp
  have hnd1 : (keysOf (checkAllForSilence env1 p).1.lastPacketTime).Nodup :=
    cafs_lpt_nodup env1 p hnd
  have hcoh1 : Coherent (checkAllForSilence env1 p).1 :=
    cafs_coherent env1 p hcoh
  have hbe : bufD (checkAllForSilence env1 p).1 s = [] := by
    rw [cafs_eq env1 p hsp] at hflushed ⊢
    exact fs_flushed_empty env1 p.lastPacketTime p s hnd hflushed
  constructor
  · intro env2
    rw [cafs_count env2 _ s hsp1 hnd1]
    simp [staleNonEmpty, hbe]
  · intro env2 env3 pk hks h0 hs hstale
    subst hks
    have hsp2 : (processAudioPacket env2 (checkAllForSilence env1 p).1
        (some pk)).1.speechServiceAvailable = true :=
      ((pap_fixed env2 _ (some pk)).2).trans hsp1
    have hnd2 : (keysOf (processAudioPacket env2 (checkAllForSilence env1 p).1
        (some pk)).1.lastPacketTime).Nodup :=
      pap_lpt_nodup env2 _ (some pk) hnd1
    have hlk : lookupA (processAudioPacket env2 (checkAllForSilence env1 p).1
        (some pk)).1.lastPacketTime pk.ssrc = some env2.now :=
      pap_lpt_self env2 _ pk h0 hs
    have hbd : bufD (processAudioPacket env2 (checkAllForSilence env1 p).1
        (some pk)).1 pk.ssrc ≠ [] := by
      rw [pap_bufD env2 _ pk pk.ssrc hcoh1]
      simp [h0, hs]
    exact (cafs_mem_iff env3 _ pk.ssrc hsp2 hnd2).mpr
      ((staleNonEmpty_iff env3 _ pk.ssrc hnd2).mpr
        ⟨⟨env2.now, hlk, hstale⟩, hbd⟩)

/-- Witness for C7: the busy processor's first tick flushes SSRC 5, and a
second tick right after flushes nothing for it. -/
theorem spec_c7_single_flush_witness :
    countRecognize 5 (checkAllForSilence envQuiet
      (checkAllForSilence envQuiet procBusy).1).2 = 0 :=
  (spec_c7_single_flush envQuiet procBusy 5 rfl (by decide)
    ⟨by decide, by decide⟩ (by decide)).1 envQuiet

/-- C1 counterexample: the flush does not clear the buffer before the batch
is handed onward — at this state the recognizer hand-off is the first event
of the flush trace and the buffer reset comes after it, so the claimed
copy-then-clear-before-hand-off ordering is false. -/
theorem spec_c1_counterexample :
    clearedBeforeHandoff (sendBufferToGoogle envQuiet procBusy 5).2 = false ∧
    (sendBufferToGoogle envQuiet procBusy 5).2 =
      [Event.recognize 5 [voicePacket], Event.resetBuffer 5] := by
  constructor
  · decide
  · decide

/-- C1 amended: each flush hands the buffer's live contents to the
recognizer first and resets the buffer only after the call (hand-off is the
head of the flush trace, the reset its last event); nevertheless, for every
serialized sequence of packet arrivals, detector ticks and flushes (no
shutdown), the flushed batches of a tag followed by its remaining buffer are
exactly the voice packets received for that tag — nothing duplicated,
nothing lost. -/
theorem spec_c1_flush_accounting (p : Processor)
    (hcoh : Coherent p) (hproc : p.isProcessing = true) :
    (∀ env s buffer, p.speechServiceAvailable = true →
      lookupA p.oggBuffers s = some buffer → buffer ≠ [] →
      ((sendBufferToGoogle env p s).2.head? = some (Event.recognize s buffer) ∧
       (sendBufferToGoogle env p s).2.getLast? = some (Event.resetBuffer s))) ∧
    (∀ ops, (∀ op ∈ ops, isStopOp op = false) → ∀ t,
      sentFor t (runA p ops).2 ++ bufD (runA p ops).1 t =
        bufD p t ++ voiceIn t ops) := by
  constructor
  · intro env s buffer hsp hb hne
    have hbd : bufD p s = buffer := by simp [bufD, hb]
    rcases sbg_cases env p s with ⟨hc, _⟩ | ⟨_, _, hc⟩
    · rcases hc with hc | hc
      · rw [hsp] at hc
        cases hc
      · rw [hbd] at hc
        exact absurd hc hne
    · rw [hc]
      constructor
      · rw [hbd]
        rfl
      · rw [show Event.recognize s (bufD p s) ::
            (if env.recognizeFails then writeDebugFile env s (bufD p s) else []) ++
            [Event.resetBuffer s] =
          (Event.recognize s (bufD p s) ::
            (if env.recognizeFails then writeDebugFile env s (bufD p s) else [])) ++
            [Event.resetBuffer s] by simp]
        exact List.getLast?_concat _
  · intro ops hnostop t
    exact runA_account ops p t hcoh hproc hnostop

/-- The step sequence used by the C1 witness: receive a voice packet, flush
SSRC 5, receive another voice packet. -/
def opsC1 : List AOp :=
  [AOp.recv envQuiet (some voicePacket), AOp.flush envQuiet 5,
   AOp.recv envQuiet (some voicePacket)]

/-- Witness for C1 amended at a fresh processor and a concrete step
sequence. -/
theorem spec_c1_flush_accounting_witness :
    Coherent procFresh ∧
    sentFor 5 (runA procFresh opsC1).2 ++ bufD (runA procFresh opsC1).1 5 =
      bufD procFresh 5 ++ voiceIn 5 opsC1 := by
  have hcoh : Coherent procFresh := ⟨by decide, by decide⟩
  exact ⟨hcoh,
    (spec_c1_flush_accounting procFresh hcoh rfl).2 opsC1 (by decide) 5⟩

/-- C3 counterexample: the per-packet ingestion step does perform container
encoding — handling a voice packet emits a `WriteRTP` into the per-source
OGG writer on the ingestion path — and the silence detector does block on
network I/O, performing the recognizer call inside its own tick. -/
theorem spec_c3_counterexample :
    ((processAudioPacket envQuiet procFresh (some voicePacket)).2.any
      isWriteRTPEvent) = true ∧
    (processAudioPacket envQuiet procFresh (some voicePacket)).2 =
      [Event.writeRTP 5 voicePacket] ∧
    ((checkAllForSilence envQuiet procBusy).2.any isRecognizeEvent) = true := by
  refine ⟨by decide, by decide, by decide⟩

/-- C3 amended: the per-packet ingestion step performs no network call and
no file write — its only side effect is the inline container-encoding write
of a voice packet into the per-source OGG writer; the recognizer network
call happens instead on the silence-detector tick. -/
theorem spec_c3_ingestion_no_network (env : Env) (p : Processor)
    (pkt : Option Packet) :
    ((processAudioPacket env p pkt).2.all fun e =>
      !isRecognizeEvent e && !isWriteFileEvent e) = true ∧
    (∀ pk, pkt = some pk → pk.opus.length ≠ 0 → isSilencePacket pk = false →
      (processAudioPacket env p pkt).2 = [Event.writeRTP pk.ssrc pk]) := by
  refine ⟨pap_no_network env p pkt, ?_⟩
  rintro pk rfl h0 hs
  exact pap_voice_trace env p pk h0 hs

/-- Witness for C3 amended: the concrete voice packet's ingestion trace is
one `WriteRTP` and nothing recognizer- or file-related. -/
theorem spec_c3_ingestion_no_network_witness :
    (processAudioPacket envQuiet procFresh (some voicePacket)).2 =
      [Event.writeRTP voicePacket.ssrc voicePacket] :=
  (spec_c3_ingestion_no_network envQuiet procFresh (some voicePacket)).2
    voicePacket rfl (by decide) (by decide)

/-- C5 counterexample: processing a silence packet does not only increment
the silence counter — it also increments the global packet counter, so the
resulting state differs from the state with only `silenceDetections`
bumped. -/
theorem spec_c5_counterexample :
    (processAudioPacket envQuiet procFresh (some silencePacket)).1 ≠
      { procFresh with
          silenceDetections := procFresh.silenceDetections + 1 } ∧
    (processAudioPacket envQuiet procFresh
      (some silencePacket)).1.packetsReceived =
      procFresh.packetsReceived + 1 := by
  constructor
  · decide
  · decide

/-- C5 amended: a silence-sentinel packet only bumps the packet and silence
counters — it is never appended to any session buffer — and consequently,
over every step sequence from a clean state, no sentinel packet ever appears
in any flush batch or debug file. -/
theorem spec_c5_silence_not_buffered (p : Processor) (hclean : BuffersClean p) :
    (∀ env pk, isSilencePacket pk = true →
      processAudioPacket env p (some pk) =
        ({ p with packetsReceived := p.packetsReceived + 1,
                  silenceDetections := p.silenceDetections + 1 }, [])) ∧
    ∀ ops, BuffersClean (runA p ops).1 ∧
      ∀ d ∈ batchesAll (runA p ops).2, ∀ pk ∈ d, isSilencePacket pk = false :=
  ⟨fun env pk h => pap_silence env p pk h, fun ops => runA_clean ops p hclean⟩

/-- Witness for C5 amended: processing the concrete sentinel packet on the
fresh processor bumps exactly the two counters and emits no events. -/
theorem spec_c5_silence_not_buffered_witness :
    BuffersClean procFresh ∧
    processAudioPacket envQuiet procFresh (some silencePacket) =
      ({ procFresh with
          packetsReceived := procFresh.packetsReceived + 1,
          silenceDetections := procFresh.silenceDetections + 1 }, []) := by
  have hclean : BuffersClean procFresh := by
    intro e he
    cases he
  exact ⟨hclean,
    (spec_c5_silence_not_buffered procFresh hclean).1 envQuiet silencePacket
      (by decide)⟩
